import Mathlib

/-!
Formal model of the Qiskit pulse-compiler IR core: the addressing model
(`logical_elements_frames.py`), the legacy flat IR (`pulse_ir.py`), the
graph-based `SequenceIR` (`ir/ir.py`) and the `ConsolidateSequences`
compiler pass (`compiler/passes/consolidate_sequences.py`).

Python values are embedded as follows: machine integers are `Int`/`Nat`
(Python ints are unbounded, so no wrap-around modelling is needed), floats
are `Rat` (only structural equality of numeric fields matters to the
verified properties), optional values are `Option`, raised exceptions are
an explicit error result.  Python `hash` values are modelled by the tuple
the code feeds to `hash(...)`: equal tuples give equal Python hashes, so
equality of the modelled keys is a sound model of hash equality.
-/

namespace PulseSpec

/-- Error kinds produced by the modelled code.  `PulseError` /
`PulseCompilerError` messages are elided and mapped to the specification's
error taxonomy (InvalidInstruction, UnscheduledError, MalformedProgramError,
AlreadyScheduledError); `typeError` and `attributeError` model Python
`TypeError` / `AttributeError` exceptions escaping from the code. -/
inductive PyErr where
  | invalidInstruction
  | unscheduledError
  | malformedProgram
  | alreadyScheduled
  | typeError
  | attributeError
deriving DecidableEq, Repr

/-! ## Addressing model: `logical_elements_frames.py` -/

/-- Logical elements: `Qubit(index)` and `Coupler(i, j)` (`LogicalElement`
subclasses).  Index validation is not modelled here; the claims under
verification concern equality and hashing of constructed values. -/
inductive LogicalElementV where
  | qubit (index : Nat)
  | coupler (i j : Nat)
deriving DecidableEq, Repr

/-- Python `LogicalElement.__eq__`: `type(self) is type(other) and
self._index == other._index`. -/
def logicalElementEq : LogicalElementV → LogicalElementV → Bool
  | .qubit a, .qubit b => a == b
  | .coupler a b, .coupler c d => a == c && b == d
  | _, _ => false

/-- Python `LogicalElement.__hash__` returns `hash(self.name)`; the name is
`"Q{index}"` for qubits and `"Coupler(i, j)"` for couplers.  The hash is
modelled by the hashed string itself. -/
def logicalElementHashKey : LogicalElementV → String
  | .qubit i => "Q" ++ toString i
  | .coupler i j => "Coupler(" ++ toString i ++ ", " ++ toString j ++ ")"

/-- Frames: `QubitFrame(qubit_index)`, `MeasurementFrame(qubit_index)` and
`GenericFrame(name, frequency, phase=None)`.  `GenericFrame.__init__` stores
the `phase` argument verbatim; the default for an omitted phase is the
Python value `None` (`phase: float = None` in the signature), embedded as
`Option.none`. -/
inductive FrameV where
  | qubitFrame (qubitIndex : Nat)
  | measurementFrame (qubitIndex : Nat)
  | genericFrame (name : String) (frequency : Rat) (phase : Option Rat)
deriving DecidableEq, Repr

/-- Python frame equality.  `Frame.__eq__` compares `type(self) is
type(other) and self._name == other._name`; the name of a `QubitFrame` /
`MeasurementFrame` is determined by its qubit index.  `GenericFrame`
overrides `__eq__` to compare `type`, `_name`, `_frequency` and the raw
stored `_phase` (which may be `None`). -/
def frameEq : FrameV → FrameV → Bool
  | .qubitFrame a, .qubitFrame b => a == b
  | .measurementFrame a, .measurementFrame b => a == b
  | .genericFrame n1 f1 p1, .genericFrame n2 f2 p2 => n1 == n2 && f1 == f2 && p1 == p2
  | _, _ => false

/-- Python frame hashing, modelled by the hashed key.  `Frame.__init__`
stores `hash(name)` (the names of the three frame kinds are distinct
strings); `GenericFrame.__init__` stores `hash((name, frequency, phase))`
with the raw `phase` argument. -/
def frameHashKey : FrameV → String ⊕ (String × Rat × Option Rat)
  | .qubitFrame i => .inl ("QubitFrame" ++ toString i)
  | .measurementFrame i => .inl ("MeasurementFrame" ++ toString i)
  | .genericFrame n f p => .inr (n, f, p)

/-- Python `GenericFrame.phase` property: `0 if self._phase is None else
self._phase`. -/
def genericFramePhaseProp (phase : Option Rat) : Rat :=
  phase.getD 0

/-- Mixed frames.  `MixedFrame(logical_element, frame)` stores the pair;
`CRMixedFrame` is a subclass adding no state.  The `isCR` flag records
which constructor was used (the wrapper subtype). -/
structure MixedFrameV where
  isCR : Bool
  logicalElement : LogicalElementV
  frame : FrameV
deriving DecidableEq, Repr

/-- Python `MixedFrame.__eq__`: `self._logical_element ==
other._logical_element and self._frame == other._frame`; there is no type
check, and `CRMixedFrame` does not override `__eq__`. -/
def mixedFrameEq (a b : MixedFrameV) : Bool :=
  logicalElementEq a.logicalElement b.logicalElement && frameEq a.frame b.frame

/-- Python `MixedFrame.__hash__` returns `hash((logical_element, frame))`,
modelled by the pair of the components' hash keys; `CRMixedFrame` does not
override `__hash__`. -/
def mixedFrameHashKey (a : MixedFrameV) :
    String × (String ⊕ (String × Rat × Option Rat)) :=
  (logicalElementHashKey a.logicalElement, frameHashKey a.frame)

/-! ## Instruction model: `BaseIRInstruction.__init__` (`pulse_ir.py`) -/

/-- Python `BaseIRInstruction.__init__(duration, operand, t0=None)`,
restricted to its duration/t0 validation (the operand is opaque at this
level).  The code executes, in order:

`if not isinstance(duration, (int, np.integer)) or duration < 0: raise PulseError`

`if t0 is not None and not isinstance(t0, (int, np.integer)) or t0 < 0: raise PulseError`

Arguments are already integers here, so the `isinstance` tests hold and the
second condition reduces, by Python operator precedence
(`(A and B) or C`), to `False or t0 < 0`, i.e. to evaluating `t0 < 0`.
When `t0` is `None` that comparison is `None < 0`, which raises a Python
`TypeError`.  On success the state `(duration, t0)` is stored. -/
def baseIRInstructionInit (duration : Int) (t0 : Option Int) :
    Except PyErr (Int × Option Int) :=
  if duration < 0 then .error .invalidInstruction
  else
    match t0 with
    | none => .error .typeError
    | some n =>
      if n < 0 then .error .invalidInstruction
      else .ok (duration, some n)

/-! ## Program graph: `SequenceIR` (`ir/ir.py`)

A `SequenceIR` wraps a `rustworkx.PyDAG(multigraph=False)` whose node 0 is
the `_InNode` sentinel and node 1 the `_OutNode` sentinel, plus a sparse
time table (`defaultdict(lambda: None)`, i.e. absent key = `None`).  The
graph is embedded as an association list of node index/payload pairs kept
in ascending index order (rustworkx's `node_indices()` / `nodes()` return
nodes in ascending index order), an edge list without duplicates
(`multigraph=False`), and the time table as an association list holding
exactly the entries whose value is not `None`. -/

/-- Alignment policies (`qiskit.pulse.transforms.AlignmentKind` subclasses).
`AlignFunc` carries an opaque callable, modelled by a numeric identifier. -/
inductive AlignmentKind where
  | alignLeft
  | alignRight
  | alignSequential
  | alignEquispaced (duration : Int)
  | alignFunc (duration : Int) (fnId : Nat)
deriving DecidableEq, Repr

/-- Leaf pulse instruction (`qiskit.pulse.Instruction`), modelled opaquely
by an identifying tag and its integer duration; equality is structural. -/
structure PInstr where
  tag : Nat
  duration : Int
deriving DecidableEq, Repr

mutual

/-- Model of `SequenceIR`: alignment, the DAG's node association list
(ascending node indices; index 0 = `_InNode`, index 1 = `_OutNode`), the
DAG's edge list, and the time table (entries whose value is set). -/
inductive SequenceIR : Type where
  | mk (alignment : AlignmentKind) (nodes : NodeList) (edges : List (Nat × Nat))
      (timeTable : List (Nat × Int)) : SequenceIR

/-- Association list of node index/payload pairs.  A bespoke list type (in
place of `List (Nat × Elem)`) so that all recursive functions over the
graph are structurally recursive over this mutual inductive family. -/
inductive NodeList : Type where
  | nil : NodeList
  | cons (ind : Nat) (e : Elem) (rest : NodeList) : NodeList

/-- Node payload: one of the two sentinels, a leaf instruction, or a nested
`SequenceIR`. -/
inductive Elem : Type where
  | inNode : Elem
  | outNode : Elem
  | inst (i : PInstr) : Elem
  | seq (s : SequenceIR) : Elem

end

def SequenceIR.alignment : SequenceIR → AlignmentKind
  | .mk al _ _ _ => al

def SequenceIR.nodes : SequenceIR → NodeList
  | .mk _ ns _ _ => ns

def SequenceIR.edges : SequenceIR → List (Nat × Nat)
  | .mk _ _ es _ => es

def SequenceIR.timeTable : SequenceIR → List (Nat × Int)
  | .mk _ _ _ tt => tt

def NodeList.toList : NodeList → List (Nat × Elem)
  | .nil => []
  | .cons i e r => (i, e) :: r.toList

def NodeList.keys (ns : NodeList) : List Nat :=
  ns.toList.map (·.1)

def NodeList.payloads (ns : NodeList) : List Elem :=
  ns.toList.map (·.2)

/-- Python `element.t0` style lookup in the time table: the value stored at
`ind`, or `None` when no entry is set (`defaultdict(lambda: None)`). -/
def lookupTT (tt : List (Nat × Int)) (ind : Nat) : Option Int :=
  (tt.find? (fun p => p.1 == ind)).map (·.2)

/-- Python `del time_table[ind]`. -/
def delTT (tt : List (Nat × Int)) (ind : Nat) : List (Nat × Int) :=
  tt.filter (fun p => p.1 ≠ ind)

/-- Python `time_table[ind] = v`. -/
def writeTT (tt : List (Nat × Int)) (ind : Nat) (v : Int) : List (Nat × Int) :=
  (ind, v) :: delTT tt ind

/-- rustworkx `PyDAG.node_indices()`: node indices in ascending order. -/
def SequenceIR.nodeIndices (g : SequenceIR) : List Nat :=
  g.nodes.keys

/-- rustworkx `PyDAG.get_node_data(ind)`. -/
def SequenceIR.getNodeData (g : SequenceIR) (ind : Nat) : Option Elem :=
  (g.nodes.toList.find? (fun p => p.1 == ind)).map (·.2)

/-- Python `SequenceIR.elements()`: `self._sequence.nodes()[2:]` — all node
payloads in ascending index order, with the two sentinel payloads (stored
first) dropped. -/
def SequenceIR.elements (g : SequenceIR) : List Elem :=
  g.nodes.payloads.drop 2

/-- rustworkx `PyDAG.predecessor_indices(ind)` (in edge-list order). -/
def SequenceIR.predecessorIndices (g : SequenceIR) (ind : Nat) : List Nat :=
  (g.edges.filter (fun e => e.2 == ind)).map (·.1)

def NodeList.setPayload : NodeList → Nat → Elem → NodeList
  | .nil, _, _ => .nil
  | .cons i e r, ind, v =>
    if i = ind then .cons i v (r.setPayload ind v)
    else .cons i e (r.setPayload ind v)

/-- rustworkx `PyDAG.__setitem__`: `prog.sequence[ind] = v` replaces the
payload of node `ind`. -/
def SequenceIR.setPayload (g : SequenceIR) (ind : Nat) (v : Elem) : SequenceIR :=
  .mk g.alignment (g.nodes.setPayload ind v) g.edges g.timeTable

def NodeList.removeNode : NodeList → Nat → NodeList
  | .nil, _ => .nil
  | .cons i e r, ind =>
    if i = ind then r.removeNode ind else .cons i e (r.removeNode ind)

/-- Add an edge unless already present (`PyDAG(multigraph=False)` never
holds parallel edges). -/
def addEdge (es : List (Nat × Nat)) (e : Nat × Nat) : List (Nat × Nat) :=
  if e ∈ es then es else es ++ [e]

def addEdges (es : List (Nat × Nat)) (new : List (Nat × Nat)) : List (Nat × Nat) :=
  new.foldl addEdge es

/-- rustworkx `PyDAG.remove_node_retain_edges(ind)`: connect each
predecessor of `ind` directly to each successor, then delete `ind` and all
its incident edges.  The time table is a separate Python dict and is not
touched. -/
def SequenceIR.removeNodeRetainEdges (g : SequenceIR) (ind : Nat) : SequenceIR :=
  let preds := (g.edges.filter (fun e => e.2 == ind)).map (·.1)
  let succs := (g.edges.filter (fun e => e.1 == ind)).map (·.2)
  let kept := g.edges.filter (fun e => e.1 ≠ ind ∧ e.2 ≠ ind)
  let bridged := preds.flatMap (fun p => succs.map (fun s => (p, s)))
  .mk g.alignment (g.nodes.removeNode ind) (addEdges kept bridged) g.timeTable

def NodeList.maxKey : NodeList → Nat
  | .nil => 0
  | .cons i _ r => max i r.maxKey

def SequenceIR.maxIndex (g : SequenceIR) : Nat :=
  g.nodes.maxKey

/-- Fresh-index mapping used by `substitute_node_with_subgraph`: the nodes
of the substituted subgraph, in ascending index order, receive the next
free indices of the host graph.  petgraph appends the new nodes after the
host's maximal index (observed behaviour, pinned by the repository's own
tests, e.g. `test_nested_sequential_alignments`). -/
def substMapping (g sub : SequenceIR) : List (Nat × Nat) :=
  (sub.nodes.toList.enum.map (fun p => (p.2.1, g.maxIndex + 1 + p.1)))

def mappingApply (m : List (Nat × Nat)) (i : Nat) : Nat :=
  ((m.find? (fun p => p.1 == i)).map (·.2)).getD i

def NodeList.ofList : List (Nat × Elem) → NodeList
  | [] => .nil
  | (i, e) :: r => .cons i e (NodeList.ofList r)

def NodeList.appendList : NodeList → List (Nat × Elem) → NodeList
  | .nil, l => NodeList.ofList l
  | .cons i e rest, l => .cons i e (rest.appendList l)

/-- rustworkx `PyDAG.substitute_node_with_subgraph(ind, sub, edge_map_fn)`
with the `edge_map` used by this repository: an incoming edge `(x, ind)`
is rerouted to the image of `sub`'s node 0, an outgoing edge `(ind, y)` is
rerouted from the image of `sub`'s node 1; `sub`'s own edges are copied
with remapped endpoints; node `ind` is removed and `sub`'s nodes are added
under fresh indices.  Returns the new graph together with the node mapping
(old index in `sub` to new index in the host).  The time table is not
touched. -/
def SequenceIR.substituteNodeWithSubgraph (g : SequenceIR) (ind : Nat)
    (sub : SequenceIR) : SequenceIR × List (Nat × Nat) :=
  let m := substMapping g sub
  let newNodes := (g.nodes.removeNode ind).appendList
    (sub.nodes.toList.map (fun p => (mappingApply m p.1, p.2)))
  let inherited := g.edges.filterMap (fun e =>
    if e.2 = ind then
      if e.1 = ind then none else some (e.1, mappingApply m 0)
    else if e.1 = ind then some (mappingApply m 1, e.2)
    else some e)
  let inner := sub.edges.map (fun e => (mappingApply m e.1, mappingApply m e.2))
  (.mk g.alignment newNodes (addEdges (addEdges [] inherited) inner) g.timeTable, m)

def SequenceIR.withTimeTable (g : SequenceIR) (tt : List (Nat × Int)) : SequenceIR :=
  .mk g.alignment g.nodes g.edges tt

/-! ## Consolidation pass: `ConsolidateSequences` -/

/-- Python `ConsolidateSequences.single_instruction_unnecessary_alignments
= (AlignLeft, AlignRight, AlignSequential)`. -/
def degenerateAlignment : AlignmentKind → Bool
  | .alignLeft => true
  | .alignRight => true
  | .alignSequential => true
  | _ => false

/-- Precondition check opening `_consolidate_recursion`: `any(
prog.time_table[x] is not None for x in prog.sequence.node_indices() if x
not in (0, 1))`. -/
def SequenceIR.scheduledCheck (g : SequenceIR) : Bool :=
  g.nodeIndices.any (fun x => !(x == 0 || x == 1) && (lookupTT g.timeTable x).isSome)

/-- Defensive time-table transfer in rule 4 of `_consolidate_recursion`:
`for old_node in nodes_mapping.keys(): if old_node not in (0, 1):
prog.time_table[nodes_mapping[old_node]] = initial_time +
sub_prog.time_table[old_node]`.  A `None` entry in the sub-program's table
makes the addition raise `TypeError` (uncaught), with the writes made so
far retained. -/
def applyMappedTimes (g : SequenceIR) (sub : SequenceIR) (t0 : Int) :
    List (Nat × Nat) → SequenceIR × Option PyErr
  | [] => (g, none)
  | (old, new) :: rest =>
    if old = 0 ∨ old = 1 then applyMappedTimes g sub t0 rest
    else
      match lookupTT sub.timeTable old with
      | none => (g, some .typeError)
      | some v => applyMappedTimes (g.withTimeTable (writeTT g.timeTable new (t0 + v))) sub t0 rest

/-- Treatment of one nested node by `_consolidate_recursion` after the
recursive call returned without error: given the node's index `ind` and
its consolidated nested program `sub'` (the in-place mutation of the
payload is materialized by the leading `setPayload`), apply rule 3
(degenerate single-element alignment: `prog.sequence[ind] =
sub_prog.elements()[0]`, the `headD` default being unreachable under the
length guard), else rule 4 (sequential nested in sequential: subgraph
substitution, the defensive time transfer, and removal of the two mapped
sentinel copies), else leave the node as it is.  Returns the new graph
state and the error (only the defensive time transfer can raise). -/
def consolidateStep (al : AlignmentKind) (acc : SequenceIR) (ind : Nat)
    (sub' : SequenceIR) : SequenceIR × Option PyErr :=
  let acc1 := acc.setPayload ind (.seq sub')
  if degenerateAlignment sub'.alignment && sub'.elements.length == 1 then
    (acc1.setPayload ind (sub'.elements.headD .inNode), none)
  else if sub'.alignment == .alignSequential && al == .alignSequential then
    let acc2 := (acc1.substituteNodeWithSubgraph ind sub').1
    let m := (acc1.substituteNodeWithSubgraph ind sub').2
    match lookupTT acc2.timeTable ind with
    | some t0 =>
      let am := applyMappedTimes acc2 sub' t0 m
      match am.2 with
      | some e => (am.1, some e)
      | none =>
        (((am.1.withTimeTable (delTT am.1.timeTable ind)).removeNodeRetainEdges
            (mappingApply m 0)).removeNodeRetainEdges (mappingApply m 1), none)
    | none =>
      ((acc2.removeNodeRetainEdges (mappingApply m 0)).removeNodeRetainEdges
        (mappingApply m 1), none)
  else (acc1, none)

mutual

/-- Python `ConsolidateSequences._consolidate_recursion(prog)`.  The Python
pass mutates `prog` in place and raises on error; the model returns the
state of `prog` at return/raise time together with the raised error (if
any).  After the opening scheduled-check, the loop iterates over a
snapshot of the node indices (rustworkx `node_indices()` returns a
materialized list, so nodes spliced in by rule 4 are not revisited). -/
def consolidateRecursion : SequenceIR → SequenceIR × Option PyErr
  | .mk al ns es tt =>
    if SequenceIR.scheduledCheck (.mk al ns es tt) then
      (.mk al ns es tt, some .alreadyScheduled)
    else consolidateLoop al (.mk al ns es tt) ns

/-- Loop of `_consolidate_recursion` over the node-index snapshot.  `al`
is the (immutable) alignment of the program being consolidated, `acc` the
current state of its graph.  The loop body reads the payload from the
snapshot pair: this agrees with the Python code's
`prog.sequence.get_node_data(ind)` because the pass only ever rewrites
the payload of the node currently being processed, removes that same
node, or adds/removes nodes at fresh indices above the snapshot. -/
def consolidateLoop (al : AlignmentKind) (acc : SequenceIR) :
    NodeList → SequenceIR × Option PyErr
  | .nil => (acc, none)
  | .cons ind payload rest =>
    if ind = 0 ∨ ind = 1 then consolidateLoop al acc rest
    else
      match payload with
      | .seq sub =>
        if sub.elements.length = 0 then
          consolidateLoop al (acc.removeNodeRetainEdges ind) rest
        else
          match consolidateRecursion sub with
          | (sub', some e) => (acc.setPayload ind (.seq sub'), some e)
          | (sub', none) =>
            match consolidateStep al acc ind sub' with
            | (acc', some e) => (acc', some e)
            | (acc', none) => consolidateLoop al acc' rest
      | _ => consolidateLoop al acc rest

end

/-! ## Query surface of `SequenceIR` -/

mutual

/-- Python `SequenceIR._recursive_scheduled_elements(time_offset)`.  For
each non-sentinel node, `time = self._time_table[ind] + time_offset`
raises `TypeError` when the entry is unset, caught and re-raised as a
`PulseError` ("Can not return recursive list of scheduled elements if sub
blocks are not scheduled", the specification's UnscheduledError); nested
`SequenceIR` payloads are recursed into with the accumulated offset, leaf
payloads are emitted with their absolute time. -/
def recursiveScheduledElements (g : SequenceIR) (timeOffset : Int) :
    Except PyErr (List (Int × Elem)) :=
  match g with
  | .mk _ ns _ tt => recursiveScheduledElementsList tt timeOffset ns

def recursiveScheduledElementsList (tt : List (Nat × Int)) (timeOffset : Int) :
    NodeList → Except PyErr (List (Int × Elem))
  | .nil => .ok []
  | .cons ind e rest =>
    if ind = 0 ∨ ind = 1 then recursiveScheduledElementsList tt timeOffset rest
    else
      match lookupTT tt ind with
      | none => .error .unscheduledError
      | some t =>
        match e with
        | .seq s =>
          match recursiveScheduledElements s (t + timeOffset) with
          | .error err => .error err
          | .ok xs =>
            match recursiveScheduledElementsList tt timeOffset rest with
            | .error err => .error err
            | .ok ys => .ok (xs ++ ys)
        | _ =>
          match recursiveScheduledElementsList tt timeOffset rest with
          | .error err => .error err
          | .ok ys => .ok ((t + timeOffset, e) :: ys)

end

/-- Python `SequenceIR.scheduled_elements(recursive=True)`: the recursive
listing, then `listed_elements.sort(key=lambda x: x[0])` (the guard
`all(x[0] is not None ...)` holds trivially, every recursive entry carries
a resolved time). -/
def SequenceIR.scheduledElementsRecursive (g : SequenceIR) :
    Except PyErr (List (Int × Elem)) :=
  match recursiveScheduledElements g 0 with
  | .error e => .error e
  | .ok l => .ok (l.mergeSort (fun a b => a.1 ≤ b.1))

/-- Python `SequenceIR.scheduled_elements(recursive=False)`: each
non-sentinel node's own time-table entry (possibly `None`) paired with its
payload, sorted by time only when every entry is set. -/
def SequenceIR.scheduledElementsNonRecursive (g : SequenceIR) :
    List (Option Int × Elem) :=
  let listed := (g.nodes.toList.filter (fun p => !(p.1 == 0 || p.1 == 1))).map
    (fun p => (lookupTT g.timeTable p.1, p.2))
  if listed.all (fun x => x.1.isSome) then
    listed.mergeSort (fun a b => a.1.getD 0 ≤ b.1.getD 0)
  else listed

mutual

/-- Specification-side predicate for claim C10: some element at some
nesting depth (a leaf instruction as much as a nested graph) has an unset
time-table entry. -/
def hasUnsetTime : SequenceIR → Bool
  | .mk _ ns _ tt => hasUnsetTimeList tt ns

def hasUnsetTimeList (tt : List (Nat × Int)) : NodeList → Bool
  | .nil => false
  | .cons ind e rest =>
    (if ind = 0 ∨ ind = 1 then false
     else
       (lookupTT tt ind).isNone ||
         (match e with
          | .seq s => hasUnsetTime s
          | _ => false)) ||
      hasUnsetTimeList tt rest

end

/-- Some non-sentinel entry of the top-level time table is unset. -/
def SequenceIR.hasUnsetTopLevel (g : SequenceIR) : Bool :=
  g.nodes.toList.any (fun p => !(p.1 == 0 || p.1 == 1) && (lookupTT g.timeTable p.1).isNone)

mutual

/-- Nesting depth of a graph (1 for a graph whose payloads are all leaves). -/
def SequenceIR.depth : SequenceIR → Nat
  | .mk _ ns _ _ => 1 + ns.depthList

def NodeList.depthList : NodeList → Nat
  | .nil => 0
  | .cons _ e r => max e.depthElem r.depthList

def Elem.depthElem : Elem → Nat
  | .seq s => s.depth
  | _ => 0

end

/-! ### Duration query (`SequenceIR.duration`)

`duration` reads `predecessor_indices(1)`; if empty it returns `None`,
else it returns `max(self._time_table[ind] +
self._sequence.get_node_data(ind).duration for ind in last_nodes)` with
`except TypeError: return None`.  Accessing `.duration` on a sentinel
payload (a bare Python `object()`) raises `AttributeError`, which is not
caught.  The recursion into nested payloads' `duration` is fuel-indexed
(any fuel exceeding the nesting depth is exact); the fuel-exhaustion
constructor is never reached from the wrapper below. -/

mutual

def durationF : Nat → SequenceIR → Except PyErr (Option Int)
  | 0, _ => .error .attributeError
  | fuel + 1, g =>
    let preds := g.predecessorIndices 1
    if preds.isEmpty then .ok none
    else durationFold fuel g preds none
termination_by fuel _ => (3 * fuel, 0)

/-- Generator consumed by `max(...)`: processed left to right, first
`TypeError` (an unresolved offset or duration) yields `None` for the whole
query, first `AttributeError` propagates; `acc` is the running maximum. -/
def durationFold (fuel : Nat) (g : SequenceIR) :
    List Nat → Option Int → Except PyErr (Option Int)
  | [], acc => .ok acc
  | p :: rest, acc =>
    match g.getNodeData p with
    | none => .error .attributeError
    | some e =>
      match elemDurationF fuel e with
      | .error err => .error err
      | .ok d =>
        match lookupTT g.timeTable p, d with
        | some off, some dd =>
          durationFold fuel g rest
            (some (match acc with
                   | none => off + dd
                   | some a => max a (off + dd)))
        | _, _ => .ok none
termination_by ps _ => (3 * fuel + 2, ps.length)

/-- Python `node.duration`: an `Instruction` has a concrete duration, a
nested `SequenceIR` recursively computes its `duration` property, and a
sentinel payload raises `AttributeError`. -/
def elemDurationF : Nat → Elem → Except PyErr (Option Int)
  | _, .inst i => .ok (some i.duration)
  | fuel, .seq s => durationF fuel s
  | _, .inNode => .error .attributeError
  | _, .outNode => .error .attributeError
termination_by fuel _ => (3 * fuel + 1, 0)

end

/-- Python `SequenceIR.duration` property. -/
def SequenceIR.duration (g : SequenceIR) : Except PyErr (Option Int) :=
  durationF (g.depth + 1) g

/-! ### Specification-side duration (claim C7 wording)

The claim reads: the duration query "returns None if the Output sentinel
has no predecessors, or if any direct predecessor of Output has an
unresolved time-table offset or unresolved duration; otherwise it returns
the maximum, over Output's direct predecessors, of that predecessor's
offset plus its own duration."  These definitions state exactly that, to
be compared with `SequenceIR.duration` above. -/

mutual

def specDurationF : Nat → SequenceIR → Option Int
  | 0, _ => none
  | fuel + 1, g =>
    let preds := g.predecessorIndices 1
    if preds.isEmpty then none
    else specDurationFold fuel g preds none
termination_by fuel _ => (3 * fuel, 0)

def specDurationFold (fuel : Nat) (g : SequenceIR) :
    List Nat → Option Int → Option Int
  | [], acc => acc
  | p :: rest, acc =>
    match g.getNodeData p with
    | none => none
    | some e =>
      match lookupTT g.timeTable p, specElemDurationF fuel e with
      | some off, some dd =>
        specDurationFold fuel g rest
          (some (match acc with
                 | none => off + dd
                 | some a => max a (off + dd)))
      | _, _ => none
termination_by ps _ => (3 * fuel + 2, ps.length)

def specElemDurationF : Nat → Elem → Option Int
  | _, .inst i => some i.duration
  | fuel, .seq s => specDurationF fuel s
  | _, .inNode => none
  | _, .outNode => none
termination_by fuel _ => (3 * fuel + 1, 0)

end

def specDuration (g : SequenceIR) : Option Int :=
  specDurationF (g.depth + 1) g

mutual

/-- Well-formedness under which the duration query cannot crash: at every
nesting level, every direct predecessor of the Output sentinel is an
existing node other than the two sentinels, and every non-sentinel node
holds an instruction or a nested graph (recursively safe) rather than a
sentinel payload. -/
def durationSafe : SequenceIR → Bool
  | .mk _ ns es _ =>
    ((es.filter (fun e => e.2 == 1)).all
      (fun e => !(e.1 == 0 || e.1 == 1) && ns.keys.contains e.1)) &&
      durationSafeList ns

def durationSafeList : NodeList → Bool
  | .nil => true
  | .cons i e r =>
    (if i = 0 ∨ i = 1 then true
     else
       match e with
       | .inst _ => true
       | .seq s => durationSafe s
       | _ => false) &&
      durationSafeList r

end

/-! ### Structural equality (`SequenceIR.__eq__`)

Python equality first compares alignments, then calls rustworkx
`is_isomorphic_node_match(self._sequence, other._sequence, lambda x, y: x
== y)`: graph isomorphism where matched payloads must compare equal under
Python `==` (sentinels match only themselves, instructions structurally,
nested `SequenceIR` payloads recursively by this same equality).  Time
tables are excluded by design.  The isomorphism search is embedded as a
search over permutations of the right graph's node list; the recursion is
fuel-indexed, and any fuel exceeding the left graph's nesting depth is
exact (the recursion always descends into a payload of the left graph). -/

def edgesMatchUnder (m : List (Nat × Nat)) (es1 es2 : List (Nat × Nat)) : Bool :=
  es1.all (fun e => es2.contains (mappingApply m e.1, mappingApply m e.2)) &&
    es2.all (fun e => (es1.map (fun d => (mappingApply m d.1, mappingApply m d.2))).contains e)

/-- All ways to insert `x` into a list (helper for the permutation
enumeration below). -/
def insertsOf (x : α) : List α → List (List α)
  | [] => [[x]]
  | y :: ys => (x :: y :: ys) :: (insertsOf x ys).map (y :: ·)

/-- All permutations of a list, by structural recursion. -/
def permsOf : List α → List (List α)
  | [] => [[]]
  | x :: xs => (permsOf xs).flatMap (insertsOf x)

def elemMatchF : Nat → Elem → Elem → Bool
  | 0, _, _ => false
  | fuel + 1, a, b =>
    match a, b with
    | .inNode, .inNode => true
    | .outNode, .outNode => true
    | .inst i, .inst j => i == j
    | .seq (.mk al1 ns1 es1 _), .seq (.mk al2 ns2 es2 _) =>
      al1 == al2 &&
        ((permsOf ns2.toList).any (fun perm =>
          ns1.toList.length == perm.length &&
            (ns1.toList.zip perm).all (fun pq => elemMatchF fuel pq.1.2 pq.2.2) &&
            edgesMatchUnder ((ns1.toList.zip perm).map (fun pq => (pq.1.1, pq.2.1))) es1 es2))
    | _, _ => false

/-- Python `SequenceIR.__eq__`. -/
def seqPyEq (g h : SequenceIR) : Bool :=
  elemMatchF (Elem.depthElem (.seq g) + 1) (.seq g) (.seq h)

/-- The result is the `PulseError` raised by
`_recursive_scheduled_elements` for unscheduled sub-blocks (the
specification's UnscheduledError). -/
def isUnscheduledError : Except PyErr α → Bool
  | .error .unscheduledError => true
  | _ => false

/-! ## Legacy flat container: `PulseIR` (`pulse_ir.py`)

A `PulseIR` holds an optional alignment and a plain element list; elements
are `GenericInstruction`s (of which only the `logical_element` and `frame`
references matter to the verified queries), `AcquireInstruction`s (of
which only the bound qubit matters) and nested `PulseIR`s. -/

mutual

inductive PulseIR : Type where
  | mk (alignment : Option AlignmentKind) (elements : PElemList) : PulseIR

inductive PElemList : Type where
  | nil : PElemList
  | cons (e : PElem) (rest : PElemList) : PElemList

inductive PElem : Type where
  | gen (logicalElement : Option LogicalElementV) (frame : Option FrameV) : PElem
  | acq (qubit : LogicalElementV) : PElem
  | sub (p : PulseIR) : PElem

end

/-- Membership in a Python set modelled as a list, under the given
equality (Python sets test membership with `__eq__` on hash collision;
equal hash keys follow from equal values for the embedded types). -/
def memBy (eq : α → α → Bool) (x : α) (l : List α) : Bool :=
  l.any (eq x)

/-- Python `set.add`. -/
def setAdd (eq : α → α → Bool) (l : List α) (x : α) : List α :=
  if memBy eq x l then l else l ++ [x]

/-- Python `set |= other`. -/
def setUnion (eq : α → α → Bool) (l1 l2 : List α) : List α :=
  l2.foldl (setAdd eq) l1

mutual

/-- Python `PulseIR.frames()`: collects `element.frame` of every
`GenericInstruction` whose frame is not `None` (instructions without a
frame are silently skipped, acquire instructions are skipped), recursing
into nested `PulseIR`s.  No failure path exists. -/
def PulseIR.framesQ : PulseIR → List FrameV
  | .mk _ els => framesQAux [] els

def framesQAux (acc : List FrameV) : PElemList → List FrameV
  | .nil => acc
  | .cons e rest =>
    match e with
    | .gen _ (some f) => framesQAux (setAdd frameEq acc f) rest
    | .sub p => framesQAux (setUnion frameEq acc p.framesQ) rest
    | _ => framesQAux acc rest

end

mutual

/-- Python `PulseIR.logical_elements()`: adds the `logical_element` of a
`GenericInstruction` when set and the qubit of an `AcquireInstruction`;
every other element falls into the `else` branch calling
`element.logical_elements()` — for a `GenericInstruction` whose
`logical_element` is `None` that attribute does not exist and Python
raises `AttributeError`. -/
def PulseIR.logicalElementsQ : PulseIR → Except PyErr (List LogicalElementV)
  | .mk _ els => logicalElementsQAux [] els

def logicalElementsQAux (acc : List LogicalElementV) :
    PElemList → Except PyErr (List LogicalElementV)
  | .nil => .ok acc
  | .cons e rest =>
    match e with
    | .gen (some le) _ => logicalElementsQAux (setAdd logicalElementEq acc le) rest
    | .acq q => logicalElementsQAux (setAdd logicalElementEq acc q) rest
    | .gen none _ => .error .attributeError
    | .sub p =>
      match p.logicalElementsQ with
      | .error err => .error err
      | .ok l => logicalElementsQAux (setUnion logicalElementEq acc l) rest

end

mutual

/-- Python `PulseIR.mixed_frames()`: for each `GenericInstruction`, raises
`PulseError` ("PulseIR contains non-broadcasted instructions...", the
specification's MalformedProgramError) when `logical_element` or `frame`
is `None`, else adds `MixedFrame(logical_element, frame)`; recurses into
nested `PulseIR`s; acquire instructions are skipped. -/
def PulseIR.mixedFramesQ : PulseIR → Except PyErr (List MixedFrameV)
  | .mk _ els => mixedFramesQAux [] els

def mixedFramesQAux (acc : List MixedFrameV) :
    PElemList → Except PyErr (List MixedFrameV)
  | .nil => .ok acc
  | .cons e rest =>
    match e with
    | .gen (some le) (some f) =>
      mixedFramesQAux (setAdd mixedFrameEq acc ⟨false, le, f⟩) rest
    | .gen _ _ => .error .malformedProgram
    | .acq _ => mixedFramesQAux acc rest
    | .sub p =>
      match p.mixedFramesQ with
      | .error err => .error err
      | .ok l => mixedFramesQAux (setUnion mixedFrameEq acc l) rest

end

mutual

/-- Claim-side predicate: some generic instruction, at any nesting depth,
lacks a logical element or a frame. -/
def hasUnboundGeneric : PulseIR → Bool
  | .mk _ els => hasUnboundGenericList els

def hasUnboundGenericList : PElemList → Bool
  | .nil => false
  | .cons e rest =>
    (match e with
     | .gen le f => le.isNone || f.isNone
     | .sub p => hasUnboundGeneric p
     | _ => false) ||
      hasUnboundGenericList rest

end

mutual

/-- Claim-side predicate: some generic instruction, at any nesting depth,
lacks a logical element. -/
def hasGenericNoLE : PulseIR → Bool
  | .mk _ els => hasGenericNoLEList els

def hasGenericNoLEList : PElemList → Bool
  | .nil => false
  | .cons e rest =>
    (match e with
     | .gen le _ => le.isNone
     | .sub p => hasGenericNoLE p
     | _ => false) ||
      hasGenericNoLEList rest

end

mutual

/-- Claim-side predicate: some generic instruction, at any nesting depth,
carries a frame equal (under Python frame equality) to `f`. -/
def frameReferenced (f : FrameV) : PulseIR → Bool
  | .mk _ els => frameReferencedList f els

def frameReferencedList (f : FrameV) : PElemList → Bool
  | .nil => false
  | .cons e rest =>
    (match e with
     | .gen _ (some f2) => frameEq f f2
     | .sub p => frameReferenced f p
     | _ => false) ||
      frameReferencedList f rest

end

/-- Concrete scheduled graph: one instruction node whose time-table entry
is set. -/
def exScheduled : SequenceIR :=
  .mk .alignSequential
    (.cons 0 .inNode (.cons 1 .outNode (.cons 2 (.inst ⟨0, 4⟩) .nil)))
    [(0, 2), (2, 1)] [(2, 5)]

mutual

/-- The graph and every nested graph is unscheduled: no time-table entry
is set at any nesting level. -/
def unscheduledRec : SequenceIR → Bool
  | .mk _ ns _ tt => tt.isEmpty && unscheduledRecList ns

def unscheduledRecList : NodeList → Bool
  | .nil => true
  | .cons _ e r =>
    (match e with
     | .seq s => unscheduledRec s
     | _ => true) &&
      unscheduledRecList r

end

/-- Modelled from the spec: rule 4's "inline via subgraph substitution as
in flatten" — substitute the node with the nested graph and remove the two
mapped sentinel copies (the defensive time branch is vacuous for an
unscheduled graph, so it is omitted here).  This is the behaviour claim C3
asserts for a single-element sequential subgraph inside a sequential
parent; it is compared against what the pass actually does. -/
def inlineViaSubgraphSubstitution (g : SequenceIR) (ind : Nat) (sub : SequenceIR) :
    SequenceIR :=
  ((g.substituteNodeWithSubgraph ind sub).1.removeNodeRetainEdges
    (mappingApply (g.substituteNodeWithSubgraph ind sub).2 0)).removeNodeRetainEdges
      (mappingApply (g.substituteNodeWithSubgraph ind sub).2 1)

/-- Sequential subgraph with a single instruction. -/
def C3sub : SequenceIR :=
  .mk .alignSequential
    (.cons 0 .inNode (.cons 1 .outNode (.cons 2 (.inst ⟨10, 7⟩) .nil)))
    [(0, 2), (2, 1)] []

/-- Sequential parent whose only interior node holds `C3sub`: rules 3 and
4 both apply to node 2. -/
def C3graph : SequenceIR :=
  .mk .alignSequential
    (.cons 0 .inNode (.cons 1 .outNode (.cons 2 (.seq C3sub) .nil)))
    [(0, 2), (2, 1)] []

def exNested : SequenceIR :=
  .mk .alignSequential
    (.cons 0 .inNode (.cons 1 .outNode (.cons 2 (.inst ⟨0, 4⟩)
      (.cons 3 (.seq (.mk .alignSequential
        (.cons 0 .inNode (.cons 1 .outNode (.cons 2 (.inst ⟨1, 6⟩)
          (.cons 3 (.inst ⟨2, 2⟩) .nil))))
        [(0, 2), (2, 3), (3, 1)] [])) .nil))))
    [(0, 2), (2, 3), (3, 1)] []

/-- `scheduled_elements(recursive=True)` either succeeds or fails with the
UnscheduledError `PulseError`; no other failure is possible. -/
def failsOnlyAsUnscheduled : Except PyErr α → Bool
  | .ok _ => true
  | .error e => e == PyErr.unscheduledError

/-- The error component of a query result: `none` on success, the raised
error on failure. -/
def errKind : Except PyErr α → Option PyErr
  | .ok _ => none
  | .error e => some e

/-- Counterexample program for claim C6: one generic instruction with no
logical element but a bound frame. -/
def C6P : PulseIR :=
  .mk none (.cons (.gen none (some (FrameV.qubitFrame 0))) .nil)

/-- Counterexample graph for claim C7: the In sentinel is the only direct
predecessor of the Output sentinel (the shape of a sequenced empty
program). -/
def C7G : SequenceIR :=
  .mk .alignSequential (.cons 0 .inNode (.cons 1 .outNode .nil)) [(0, 1)] []

/-- Witness graph for the amended claim C7: one scheduled instruction
between the sentinels. -/
def C7W : SequenceIR :=
  .mk .alignLeft (.cons 0 .inNode (.cons 1 .outNode (.cons 2 (.inst ⟨1, 5⟩) .nil)))
    [(0, 2), (2, 1)] [(2, 3)]

/-- Innermost sequential graph of the C2 counterexample: two instructions. -/
def C2S : SequenceIR :=
  .mk .alignSequential
    (.cons 0 .inNode (.cons 1 .outNode
      (.cons 2 (.inst ⟨10, 7⟩) (.cons 3 (.inst ⟨11, 3⟩) .nil))))
    [(0, 2), (2, 3), (3, 1)] []

/-- Middle layer of the C2 counterexample: an AlignLeft wrapper holding the
single element `C2S`. -/
def C2B : SequenceIR :=
  .mk .alignLeft
    (.cons 0 .inNode (.cons 1 .outNode (.cons 2 (.seq C2S) .nil)))
    [(0, 2), (2, 1)] []

/-- C2 counterexample program: Sequential [instruction, C2B]. -/
def C2G : SequenceIR :=
  .mk .alignSequential
    (.cons 0 .inNode (.cons 1 .outNode
      (.cons 2 (.inst ⟨12, 5⟩) (.cons 3 (.seq C2B) .nil))))
    [(0, 2), (2, 3), (3, 1)] []

/-- The payload is a nested graph. -/
def Elem.isSeq : Elem → Bool
  | .seq _ => true
  | _ => false

/-- Every node payload is a leaf (no nested graph). -/
def SequenceIR.isFlat (g : SequenceIR) : Bool :=
  g.nodes.payloads.all (fun e => ! e.isSeq)

/-- Witness graph for the amended claim C2: a flat unscheduled program. -/
def C2W : SequenceIR :=
  .mk .alignSequential
    (.cons 0 .inNode (.cons 1 .outNode (.cons 2 (.inst ⟨1, 4⟩) .nil)))
    [(0, 2), (2, 1)] []

/-! ## Basic equality lemmas for the addressing model -/

theorem logicalElementEq_refl (x : LogicalElementV) : logicalElementEq x x = true := by
  cases x <;> simp [logicalElementEq]

theorem frameEq_refl (x : FrameV) : frameEq x x = true := by
  cases x <;> simp [frameEq]

/-! ## Claim C1 -/

/-- C1: the claim states that constructing an instruction without
providing `t0` succeeds and leaves `t0` unset.  The code instead evaluates
`t0 < 0` with `t0 = None` (operator precedence: `(A and B) or C`) and
crashes with a Python `TypeError` on every construction that omits `t0`,
contradicting its own docstring ("Raises PulseError: if t0 is not None and
not non-negative integer").  This theorem evaluates the constructor at the
failing input and checks the intact validation paths: a provided
non-negative `t0` is accepted, a negative duration and a provided negative
`t0` are rejected with `PulseError`. -/
theorem C1_t0_default_construction_crashes :
    baseIRInstructionInit 5 none = .error .typeError ∧
    baseIRInstructionInit 5 (some 3) = .ok (5, some 3) ∧
    baseIRInstructionInit (-1) (some 0) = .error .invalidInstruction ∧
    baseIRInstructionInit 5 (some (-2)) = .error .invalidInstruction :=
  ⟨rfl, rfl, rfl, rfl⟩

/-! ## Claim C5 -/

/-- C5: the claim states that an omitted phase defaults to 0, so
`GenericFrame(n, f)` equals and hashes equal to `GenericFrame(n, f, 0)`.
In the code the omitted phase is stored as `None`; the `phase` property
reports 0 for it, but `__eq__` and `__hash__` use the raw stored value, so
the two frames compare unequal and their hashed keys differ — the code
contradicts its own documentation ("phase (Optional): ... Defaults to
zero").  The last two conjuncts check the intact part of the claim: equal
raw triples compare equal, and a different frequency breaks equality. -/
theorem C5_genericFrame_default_phase_breaks_equality :
    frameEq (.genericFrame "f" 1 none) (.genericFrame "f" 1 (some 0)) = false ∧
    frameHashKey (.genericFrame "f" 1 none) ≠ frameHashKey (.genericFrame "f" 1 (some 0)) ∧
    genericFramePhaseProp none = genericFramePhaseProp (some 0) ∧
    frameEq (.genericFrame "f" 1 (some 0)) (.genericFrame "f" 1 (some 0)) = true ∧
    frameEq (.genericFrame "f" 1 (some 0)) (.genericFrame "f" 2 (some 0)) = false :=
  ⟨rfl, by decide, rfl, by decide, by decide⟩

/-! ## Claim C8 -/

/-- C8: a cross-resonance-specialized `CRMixedFrame(L, F)` compares equal
to, and hashes equal to, a generic `MixedFrame(L, F)` over the same
components, and mixed-frame equality depends only on the two components,
never on the wrapper subtype: `MixedFrame.__eq__` compares only
`_logical_element` and `_frame`, with no type check, and `CRMixedFrame`
overrides neither `__eq__` nor `__hash__`. -/
theorem C8_cr_mixed_frame_equals_generic :
    ∀ (le : LogicalElementV) (f : FrameV) (b1 b2 : Bool),
      mixedFrameEq ⟨b1, le, f⟩ ⟨b2, le, f⟩ = true ∧
      mixedFrameHashKey ⟨b1, le, f⟩ = mixedFrameHashKey ⟨b2, le, f⟩ ∧
      ∀ m1 m2 : MixedFrameV,
        (mixedFrameEq m1 m2 = true ↔
          (logicalElementEq m1.logicalElement m2.logicalElement = true ∧
            frameEq m1.frame m2.frame = true)) := by
  intro le f b1 b2
  refine ⟨?_, rfl, ?_⟩
  · simp [mixedFrameEq, logicalElementEq_refl, frameEq_refl]
  · intro m1 m2
    simp [mixedFrameEq, Bool.and_eq_true]

/-! ## Claim C4 -/

/-- C4: on every graph (or nested subgraph) on which the consolidation
recursion runs and in which some non-sentinel node has an assigned
time-table entry, the pass raises `AlreadyScheduledError` before touching
anything: the scheduled-check opens `_consolidate_recursion`, so the
returned state (node set, edges and time table) is exactly the input. -/
theorem C4_scheduled_graph_fails_unchanged :
    ∀ g : SequenceIR, g.scheduledCheck = true →
      consolidateRecursion g = (g, some .alreadyScheduled) := by
  intro g h
  cases g with
  | mk al ns es tt => simp [consolidateRecursion, h]

/-- Witness for C4 at a concrete scheduled graph. -/
theorem C4_scheduled_graph_fails_unchanged_witness :
    exScheduled.scheduledCheck = true ∧
      consolidateRecursion exScheduled = (exScheduled, some .alreadyScheduled) :=
  ⟨rfl, C4_scheduled_graph_fails_unchanged exScheduled rfl⟩

/-! ## Commutation lemmas for the graph editing primitives -/

theorem NodeList.toList_setPayload :
    ∀ (ns : NodeList) (j : Nat) (v : Elem),
      (ns.setPayload j v).toList = ns.toList.map (fun p => if p.1 = j then (p.1, v) else p)
  | .nil, _, _ => rfl
  | .cons i e r, j, v => by
    by_cases h : i = j <;>
      simp [NodeList.setPayload, NodeList.toList, NodeList.toList_setPayload r, h]

theorem NodeList.toList_removeNode :
    ∀ (ns : NodeList) (j : Nat),
      (ns.removeNode j).toList = ns.toList.filter (fun p => p.1 != j)
  | .nil, _ => rfl
  | .cons i e r, j => by
    by_cases h : i = j <;>
      simp [NodeList.removeNode, NodeList.toList, NodeList.toList_removeNode r, h]

theorem NodeList.toList_ofList :
    ∀ (l : List (Nat × Elem)), (NodeList.ofList l).toList = l
  | [] => rfl
  | (i, e) :: r => by
    simp [NodeList.ofList, NodeList.toList, NodeList.toList_ofList r]

theorem NodeList.toList_appendList :
    ∀ (ns : NodeList) (l : List (Nat × Elem)), (ns.appendList l).toList = ns.toList ++ l
  | .nil, l => by simp [NodeList.appendList, NodeList.toList, NodeList.toList_ofList l]
  | .cons i e rest, l => by
    simp [NodeList.appendList, NodeList.toList, NodeList.toList_appendList rest l]

theorem NodeList.key_le_maxKey :
    ∀ (ns : NodeList) (p : Nat × Elem), p ∈ ns.toList → p.1 ≤ ns.maxKey
  | .cons i e r, p, hp => by
    simp only [NodeList.toList, List.mem_cons] at hp
    rcases hp with h | h
    · simp [h, NodeList.maxKey]
    · exact le_trans (NodeList.key_le_maxKey r p h) (by simp [NodeList.maxKey])

@[simp] theorem SequenceIR.timeTable_setPayload (g : SequenceIR) (j : Nat) (v : Elem) :
    (g.setPayload j v).timeTable = g.timeTable := rfl

@[simp] theorem SequenceIR.timeTable_removeNodeRetainEdges (g : SequenceIR) (j : Nat) :
    (g.removeNodeRetainEdges j).timeTable = g.timeTable := rfl

@[simp] theorem SequenceIR.timeTable_substituteNodeWithSubgraph (g sub : SequenceIR) (j : Nat) :
    (g.substituteNodeWithSubgraph j sub).1.timeTable = g.timeTable := rfl

@[simp] theorem SequenceIR.timeTable_withTimeTable (g : SequenceIR) (tt : List (Nat × Int)) :
    (g.withTimeTable tt).timeTable = tt := rfl

@[simp] theorem SequenceIR.alignment_setPayload (g : SequenceIR) (j : Nat) (v : Elem) :
    (g.setPayload j v).alignment = g.alignment := rfl

@[simp] theorem SequenceIR.alignment_removeNodeRetainEdges (g : SequenceIR) (j : Nat) :
    (g.removeNodeRetainEdges j).alignment = g.alignment := rfl

@[simp] theorem SequenceIR.alignment_substituteNodeWithSubgraph (g sub : SequenceIR) (j : Nat) :
    (g.substituteNodeWithSubgraph j sub).1.alignment = g.alignment := rfl

@[simp] theorem SequenceIR.alignment_withTimeTable (g : SequenceIR) (tt : List (Nat × Int)) :
    (g.withTimeTable tt).alignment = g.alignment := rfl

@[simp] theorem SequenceIR.nodes_withTimeTable (g : SequenceIR) (tt : List (Nat × Int)) :
    (g.withTimeTable tt).nodes = g.nodes := rfl

theorem applyMappedTimes_nodes :
    ∀ (m : List (Nat × Nat)) (g sub : SequenceIR) (t0 : Int),
      (applyMappedTimes g sub t0 m).1.nodes = g.nodes
  | [], _, _, _ => rfl
  | (old, new) :: rest, g, sub, t0 => by
    by_cases h : old = 0 ∨ old = 1
    · simp only [applyMappedTimes, if_pos h]
      exact applyMappedTimes_nodes rest g sub t0
    · simp only [applyMappedTimes, if_neg h]
      cases hl : lookupTT sub.timeTable old with
      | none => rfl
      | some v => exact applyMappedTimes_nodes rest _ sub t0

theorem applyMappedTimes_alignment :
    ∀ (m : List (Nat × Nat)) (g sub : SequenceIR) (t0 : Int),
      (applyMappedTimes g sub t0 m).1.alignment = g.alignment
  | [], _, _, _ => rfl
  | (old, new) :: rest, g, sub, t0 => by
    by_cases h : old = 0 ∨ old = 1
    · simp only [applyMappedTimes, if_pos h]
      exact applyMappedTimes_alignment rest g sub t0
    · simp only [applyMappedTimes, if_neg h]
      cases hl : lookupTT sub.timeTable old with
      | none => rfl
      | some v => exact applyMappedTimes_alignment rest _ sub t0

theorem find?_filter_of_imp (l : List α) (b p : α → Bool)
    (h : ∀ a, p a = true → b a = true) : (l.filter b).find? p = l.find? p := by
  induction l with
  | nil => rfl
  | cons a t ih =>
    by_cases hb : b a = true
    · rw [List.filter_cons_of_pos hb]
      by_cases hp : p a = true
      · rw [List.find?_cons_of_pos _ hp, List.find?_cons_of_pos _ hp]
      · rw [List.find?_cons_of_neg _ (by simpa using hp),
          List.find?_cons_of_neg _ (by simpa using hp), ih]
    · rw [List.filter_cons_of_neg (by simpa using hb)]
      have hp : p a = false := by
        cases hpa : p a with
        | true => exact absurd (h a hpa) (by simpa using hb)
        | false => rfl
      rw [List.find?_cons_of_neg _ (by simp [hp]), ih]

theorem find?_append_eq (l1 l2 : List α) (p : α → Bool) :
    (l1 ++ l2).find? p =
      match l1.find? p with
      | some a => some a
      | none => l2.find? p := by
  induction l1 with
  | nil => simp
  | cons a t ih =>
    by_cases h : p a = true
    · simp [List.find?_cons_of_pos _ h]
    · simp only [List.cons_append, List.find?_cons_of_neg _ (by simpa using h), ih]

@[simp] theorem SequenceIR.nodes_setPayload (g : SequenceIR) (j : Nat) (v : Elem) :
    (g.setPayload j v).nodes = g.nodes.setPayload j v := rfl

@[simp] theorem SequenceIR.nodes_removeNodeRetainEdges (g : SequenceIR) (j : Nat) :
    (g.removeNodeRetainEdges j).nodes = g.nodes.removeNode j := rfl

/-- Payload lookup is unchanged at other indices by `setPayload`. -/
theorem SequenceIR.getNodeData_setPayload_ne (g : SequenceIR) (i j : Nat) (v : Elem)
    (h : i ≠ j) : (g.setPayload j v).getNodeData i = g.getNodeData i := by
  simp only [SequenceIR.getNodeData, SequenceIR.nodes_setPayload, NodeList.toList_setPayload]
  rw [List.find?_map]
  have hpred : ((fun p : Nat × Elem => p.1 == i) ∘
      (fun p => if p.1 = j then (p.1, v) else p)) = (fun p : Nat × Elem => p.1 == i) := by
    funext p
    by_cases hp : p.1 = j <;> simp [Function.comp, hp]
  rw [hpred]
  cases hf : g.nodes.toList.find? (fun p => p.1 == i) with
  | none => simp
  | some q =>
    have hqi : q.1 = i := by simpa using List.find?_some hf
    simp [hqi, h]

/-- Payload lookup at an existing index is rewritten by `setPayload`. -/
theorem SequenceIR.getNodeData_setPayload_found (g : SequenceIR) (j : Nat) (v w : Elem)
    (h : g.getNodeData j = some w) : (g.setPayload j v).getNodeData j = some v := by
  simp only [SequenceIR.getNodeData, SequenceIR.nodes_setPayload, NodeList.toList_setPayload]
  rw [List.find?_map]
  have hpred : ((fun p : Nat × Elem => p.1 == j) ∘
      (fun p => if p.1 = j then (p.1, v) else p)) = (fun p : Nat × Elem => p.1 == j) := by
    funext p
    by_cases hp : p.1 = j <;> simp [Function.comp, hp]
  rw [hpred]
  cases hf : g.nodes.toList.find? (fun p => p.1 == j) with
  | none => simp [SequenceIR.getNodeData, hf] at h
  | some q =>
    have hqj : q.1 = j := by simpa using List.find?_some hf
    simp [hqj]

/-- Payload lookup is unchanged at other indices by
`removeNodeRetainEdges`. -/
theorem SequenceIR.getNodeData_removeNodeRetainEdges_ne (g : SequenceIR) (i j : Nat)
    (h : i ≠ j) : (g.removeNodeRetainEdges j).getNodeData i = g.getNodeData i := by
  simp only [SequenceIR.getNodeData, SequenceIR.nodes_removeNodeRetainEdges,
    NodeList.toList_removeNode]
  rw [find?_filter_of_imp _ _ _ (fun a ha => by
    have hai : a.1 = i := by simpa using ha
    simp [hai, h])]

@[simp] theorem SequenceIR.nodes_substituteNodeWithSubgraph (g sub : SequenceIR) (ind : Nat) :
    (g.substituteNodeWithSubgraph ind sub).1.nodes =
      (g.nodes.removeNode ind).appendList
        (sub.nodes.toList.map (fun p => (mappingApply (substMapping g sub) p.1, p.2))) := rfl

@[simp] theorem SequenceIR.snd_substituteNodeWithSubgraph (g sub : SequenceIR) (ind : Nat) :
    (g.substituteNodeWithSubgraph ind sub).2 = substMapping g sub := rfl

theorem substMapping_keys (g sub : SequenceIR) :
    (substMapping g sub).map (·.1) = sub.nodes.toList.map (·.1) := by
  unfold substMapping
  rw [List.map_map]
  have h2 : ((fun x : Nat × Nat => x.1) ∘
        (fun p : Nat × (Nat × Elem) => (p.2.1, g.maxIndex + 1 + p.1))) =
      ((fun x : Nat × Elem => x.1) ∘ Prod.snd) := rfl
  rw [h2, ← List.map_map, List.enum_map_snd]

theorem substMapping_val_gt (g sub : SequenceIR) (q : Nat × Nat)
    (hq : q ∈ substMapping g sub) : g.maxIndex < q.2 := by
  simp only [substMapping, List.mem_map] at hq
  obtain ⟨r, _, hr⟩ := hq
  subst hr
  omega

/-- The image of a node index under the substitution mapping is either the
index itself (when it is not a node of the subgraph) or a fresh index above
the host's maximal index. -/
theorem mappingApply_substMapping (g sub : SequenceIR) (x : Nat) :
    mappingApply (substMapping g sub) x = x ∨
      g.maxIndex < mappingApply (substMapping g sub) x := by
  unfold mappingApply
  cases hf : (substMapping g sub).find? (fun p => p.1 == x) with
  | none => left; rfl
  | some q =>
    right
    have := substMapping_val_gt g sub q (List.mem_of_find?_eq_some hf)
    simpa using this

/-- Node indices of the subgraph are mapped to fresh indices above the
host's maximal index. -/
theorem mappingApply_substMapping_mem (g sub : SequenceIR) (x : Nat)
    (hx : x ∈ sub.nodes.toList.map (·.1)) :
    g.maxIndex < mappingApply (substMapping g sub) x := by
  unfold mappingApply
  cases hf : (substMapping g sub).find? (fun p => p.1 == x) with
  | none =>
    exfalso
    rw [← substMapping_keys g sub] at hx
    obtain ⟨q, hqm, hqx⟩ := List.mem_map.mp hx
    have := List.find?_eq_none.mp hf q hqm
    simp [hqx] at this
  | some q =>
    have := substMapping_val_gt g sub q (List.mem_of_find?_eq_some hf)
    simpa using this

/-- Payload lookup is unchanged by `substituteNodeWithSubgraph` at any
index other than the substituted node that is not above the host's maximal
index. -/
theorem SequenceIR.getNodeData_substitute_ne (g sub : SequenceIR) (ind i : Nat)
    (hne : i ≠ ind) (hle : i ≤ g.maxIndex) :
    (g.substituteNodeWithSubgraph ind sub).1.getNodeData i = g.getNodeData i := by
  simp only [SequenceIR.getNodeData, SequenceIR.nodes_substituteNodeWithSubgraph,
    NodeList.toList_appendList, NodeList.toList_removeNode]
  rw [find?_append_eq]
  rw [find?_filter_of_imp _ _ _ (fun a ha => by
    have hai : a.1 = i := by simpa using ha
    simp [hai, hne])]
  cases hf : g.nodes.toList.find? (fun p => p.1 == i) with
  | some q => rfl
  | none =>
    have hnone : (sub.nodes.toList.map
        (fun p => (mappingApply (substMapping g sub) p.1, p.2))).find?
          (fun p => p.1 == i) = none := by
      rw [List.find?_eq_none]
      intro x hx
      simp only [List.mem_map] at hx
      obtain ⟨p, hpm, hpx⟩ := hx
      have hgt := mappingApply_substMapping_mem g sub p.1
        (List.mem_map_of_mem (·.1) hpm)
      subst hpx
      simp only [beq_iff_eq]
      omega
    rw [hnone]

/-- Every index that holds a payload is bounded by `maxIndex`. -/
theorem SequenceIR.getNodeData_le_maxIndex (g : SequenceIR) (i : Nat) (e : Elem)
    (h : g.getNodeData i = some e) : i ≤ g.maxIndex := by
  cases hf : g.nodes.toList.find? (fun p => p.1 == i) with
  | none => simp [SequenceIR.getNodeData, hf] at h
  | some q =>
    have hqi : q.1 = i := by simpa using List.find?_some hf
    have hmem := List.mem_of_find?_eq_some hf
    have := NodeList.key_le_maxKey g.nodes q hmem
    simpa [hqi, SequenceIR.maxIndex] using this

/-! ## Time-table preservation (claim C9) -/

/-- When the node being consolidated has no set time-table entry, the
per-node step neither errors nor touches the time table: the only write
sits inside rule 4's branch guarded by `prog.time_table[ind] is not
None`. -/
theorem consolidateStep_of_unset (al : AlignmentKind) (acc : SequenceIR) (ind : Nat)
    (sub' : SequenceIR) (h : lookupTT acc.timeTable ind = none) :
    (consolidateStep al acc ind sub').1.timeTable = acc.timeTable ∧
      (consolidateStep al acc ind sub').2 = none := by
  unfold consolidateStep
  by_cases h3 : (degenerateAlignment sub'.alignment && sub'.elements.length == 1) = true
  · simp [h3]
  · rw [if_neg h3]
    by_cases h4 : (sub'.alignment == AlignmentKind.alignSequential &&
        al == AlignmentKind.alignSequential) = true
    · rw [if_pos h4]
      have hsc : lookupTT ((acc.setPayload ind (Elem.seq sub')).substituteNodeWithSubgraph
          ind sub').1.timeTable ind = none := by
        rw [SequenceIR.timeTable_substituteNodeWithSubgraph, SequenceIR.timeTable_setPayload]
        exact h
      simp only [hsc]
      simp
    · rw [if_neg h4]
      simp

/-- The consolidation loop never touches the time table, provided every
non-sentinel index in the snapshot has no set entry (which the opening
scheduled-check guarantees). -/
theorem consolidateLoop_timeTable (pairs : NodeList) (al : AlignmentKind)
    (acc : SequenceIR) (tt0 : List (Nat × Int)) (hacc : acc.timeTable = tt0)
    (hnone : ∀ p ∈ pairs.toList, ¬(p.1 = 0 ∨ p.1 = 1) → lookupTT tt0 p.1 = none) :
    (consolidateLoop al acc pairs).1.timeTable = tt0 := by
  have main : ∀ (n : Nat) (pairs : NodeList), sizeOf pairs ≤ n →
      ∀ (acc : SequenceIR), acc.timeTable = tt0 →
      (∀ p ∈ pairs.toList, ¬(p.1 = 0 ∨ p.1 = 1) → lookupTT tt0 p.1 = none) →
      (consolidateLoop al acc pairs).1.timeTable = tt0 := by
    intro n
    induction n with
    | zero =>
      intro pairs hle
      cases pairs with
      | nil => intro acc hacc _; simpa [consolidateLoop.eq_1] using hacc
      | cons i e r => simp at hle
    | succ n ih =>
      intro pairs hle acc hacc hnone
      cases pairs with
      | nil => simpa [consolidateLoop.eq_1] using hacc
      | cons ind payload rest =>
        have hler : sizeOf rest ≤ n := by
          simp at hle
          omega
        have hrest : ∀ p ∈ rest.toList, ¬(p.1 = 0 ∨ p.1 = 1) → lookupTT tt0 p.1 = none :=
          fun p hp => hnone p (by simp [NodeList.toList, hp])
        cases payload with
        | inNode =>
          rw [consolidateLoop.eq_3 al acc ind _ rest (fun s h => by cases h), ite_self]
          exact ih rest hler acc hacc hrest
        | outNode =>
          rw [consolidateLoop.eq_3 al acc ind _ rest (fun s h => by cases h), ite_self]
          exact ih rest hler acc hacc hrest
        | inst i =>
          rw [consolidateLoop.eq_3 al acc ind _ rest (fun s h => by cases h), ite_self]
          exact ih rest hler acc hacc hrest
        | seq sub =>
          rw [consolidateLoop.eq_2]
          by_cases h01 : ind = 0 ∨ ind = 1
          · rw [if_pos h01]
            exact ih rest hler acc hacc hrest
          · rw [if_neg h01]
            by_cases hempty : sub.elements.length = 0
            · rw [if_pos hempty]
              exact ih rest hler (acc.removeNodeRetainEdges ind) (by simp [hacc]) hrest
            · rw [if_neg hempty]
              rcases hcr : consolidateRecursion sub with ⟨sub', err⟩
              cases err with
              | some e => simp [hacc]
              | none =>
                have hind : lookupTT acc.timeTable ind = none := by
                  rw [hacc]
                  exact hnone (ind, Elem.seq sub) (by simp [NodeList.toList]) h01
                rcases hst : consolidateStep al acc ind sub' with ⟨acc', err'⟩
                have hstep := consolidateStep_of_unset al acc ind sub' hind
                rw [hst] at hstep
                obtain ⟨htt', herr'⟩ := hstep
                simp only at htt' herr'
                subst herr'
                simp only [hst]
                exact ih rest hler acc' (htt'.trans hacc) hrest
  exact main (sizeOf pairs) pairs le_rfl acc hacc hnone

/-- The scheduled-check is false exactly when no non-sentinel node of the
graph has a set time-table entry. -/
theorem scheduledCheck_false_iff (g : SequenceIR) :
    g.scheduledCheck = false ↔
      ∀ p ∈ g.nodes.toList, ¬(p.1 = 0 ∨ p.1 = 1) → lookupTT g.timeTable p.1 = none := by
  unfold SequenceIR.scheduledCheck
  rw [List.any_eq_false]
  constructor
  · intro h p hp hps
    have hkey : p.1 ∈ g.nodeIndices := by
      simp only [SequenceIR.nodeIndices, NodeList.keys]
      exact List.mem_map_of_mem (·.1) hp
    have := h p.1 hkey
    simp only [Bool.and_eq_true, Bool.not_eq_true', Bool.or_eq_false_iff,
      beq_eq_false_iff_ne, not_and] at this
    cases hlk : lookupTT g.timeTable p.1 with
    | none => rfl
    | some v =>
      exfalso
      exact absurd (by simp [hlk]) (this ⟨fun h0 => hps (Or.inl h0), fun h1 => hps (Or.inr h1)⟩)
  · intro h x hx
    simp only [SequenceIR.nodeIndices, NodeList.keys, List.mem_map] at hx
    obtain ⟨p, hpm, hpx⟩ := hx
    by_cases hps : x = 0 ∨ x = 1
    · rcases hps with h0 | h0 <;> simp [h0]
    · have := h p hpm (by rw [hpx]; exact hps)
      rw [hpx] at this
      simp [this]

/-- C9: when the opening scheduled-check passes, the consolidation pass
never writes to the time table: the table after the pass is exactly the
table before, and (when the table's keys all belong to the graph, as for
any schedule produced by the scheduling pass) every non-sentinel index
still has no set entry afterwards. -/
theorem C9_consolidation_preserves_empty_time_table :
    ∀ g : SequenceIR, g.scheduledCheck = false →
      (consolidateRecursion g).1.timeTable = g.timeTable ∧
      ((∀ q ∈ g.timeTable, q.1 ∈ g.nodeIndices) →
        ∀ i, ¬(i = 0 ∨ i = 1) →
          lookupTT (consolidateRecursion g).1.timeTable i = none) := by
  intro g hcheck
  have hmain : (consolidateRecursion g).1.timeTable = g.timeTable := by
    cases g with
    | mk al ns es tt =>
      simp only [consolidateRecursion, hcheck, Bool.false_eq_true, if_false]
      exact consolidateLoop_timeTable ns al (.mk al ns es tt) tt rfl
        (fun p hp hps => (scheduledCheck_false_iff (.mk al ns es tt)).mp hcheck p hp hps)
  refine ⟨hmain, fun hkeys i hi => ?_⟩
  rw [hmain]
  cases hf : g.timeTable.find? (fun p => p.1 == i) with
  | none => simp [lookupTT, hf]
  | some q =>
    exfalso
    have hqi : q.1 = i := by simpa using List.find?_some hf
    have hqmem := List.mem_of_find?_eq_some hf
    have hinode := hkeys q hqmem
    have hsch : g.scheduledCheck = true := by
      unfold SequenceIR.scheduledCheck
      rw [List.any_eq_true]
      refine ⟨q.1, by simpa [SequenceIR.nodeIndices] using hinode, ?_⟩
      have h0 : (q.1 == 0) = false := by
        rw [hqi]
        exact beq_eq_false_iff_ne.mpr (fun h0 => hi (Or.inl h0))
      have h1 : (q.1 == 1) = false := by
        rw [hqi]
        exact beq_eq_false_iff_ne.mpr (fun h1 => hi (Or.inr h1))
      have hsome : (lookupTT g.timeTable q.1).isSome = true := by
        rw [hqi]
        simp [lookupTT, hf]
      simp [h0, h1, hsome]
    rw [hcheck] at hsch
    simp at hsch

/-! ## Recursive unscheduledness and error-freedom of the pass -/

theorem unscheduledRec_timeTable (g : SequenceIR) (h : unscheduledRec g = true) :
    g.timeTable = [] := by
  cases g with
  | mk al ns es tt =>
    rw [unscheduledRec] at h
    have := (Bool.and_eq_true _ _).mp h
    simpa [SequenceIR.timeTable] using List.isEmpty_iff.mp this.1

theorem unscheduledRec_nodes (g : SequenceIR) (h : unscheduledRec g = true) :
    unscheduledRecList g.nodes = true := by
  cases g with
  | mk al ns es tt =>
    rw [unscheduledRec] at h
    exact ((Bool.and_eq_true _ _).mp h).2

theorem unscheduledRecList_mem :
    ∀ (ns : NodeList), unscheduledRecList ns = true →
      ∀ p ∈ ns.toList, ∀ s : SequenceIR, p.2 = .seq s → unscheduledRec s = true
  | .nil, _, p, hp, _, _ => by simp [NodeList.toList] at hp
  | .cons i e r, h, p, hp, s, hps => by
    simp only [NodeList.toList, List.mem_cons] at hp
    rcases hp with hh | hh
    · subst hh
      simp only at hps
      subst hps
      rw [unscheduledRecList] at h
      exact ((Bool.and_eq_true _ _).mp h).1
    · have hr : unscheduledRecList r = true := by
        cases e with
        | seq s2 =>
          rw [unscheduledRecList] at h
          exact ((Bool.and_eq_true _ _).mp h).2
        | inNode => simpa [unscheduledRecList] using h
        | outNode => simpa [unscheduledRecList] using h
        | inst k => simpa [unscheduledRecList] using h
      exact unscheduledRecList_mem r hr p hh s hps

theorem scheduledCheck_of_empty (g : SequenceIR) (h : g.timeTable = []) :
    g.scheduledCheck = false := by
  rw [scheduledCheck_false_iff]
  intro p _ _
  simp [lookupTT, h]

/-- When the rule-3 condition holds, the per-node step is exactly the
in-place payload replacement `prog.sequence[ind] = sub_prog.elements()[0]`. -/
theorem consolidateStep_rule3 (al : AlignmentKind) (acc : SequenceIR) (j : Nat)
    (sub' : SequenceIR)
    (h3 : (degenerateAlignment sub'.alignment && sub'.elements.length == 1) = true) :
    consolidateStep al acc j sub' =
      ((acc.setPayload j (.seq sub')).setPayload j (sub'.elements.headD .inNode), none) := by
  unfold consolidateStep
  rw [if_pos h3]

theorem getNodeData_congr_nodes (g h : SequenceIR) (he : g.nodes = h.nodes) (i : Nat) :
    g.getNodeData i = h.getNodeData i := by
  unfold SequenceIR.getNodeData
  rw [he]

/-- The per-node step preserves the payload stored at any other
non-sentinel node. -/
theorem consolidateStep_preserves_payload (al : AlignmentKind) (acc : SequenceIR)
    (j : Nat) (sub' : SequenceIR) (ind : Nat) (e : Elem) (hne : ind ≠ j)
    (h01 : ¬(ind = 0 ∨ ind = 1)) (hdata : acc.getNodeData ind = some e) :
    (consolidateStep al acc j sub').1.getNodeData ind = some e := by
  have hdata1 : (acc.setPayload j (Elem.seq sub')).getNodeData ind = some e := by
    rw [SequenceIR.getNodeData_setPayload_ne acc ind j _ hne]
    exact hdata
  have hle1 : ind ≤ (acc.setPayload j (Elem.seq sub')).maxIndex :=
    SequenceIR.getNodeData_le_maxIndex _ ind e hdata1
  unfold consolidateStep
  by_cases h3 : (degenerateAlignment sub'.alignment && sub'.elements.length == 1) = true
  · rw [if_pos h3]
    simp only
    rw [SequenceIR.getNodeData_setPayload_ne _ ind j _ hne,
      SequenceIR.getNodeData_setPayload_ne acc ind j _ hne]
    exact hdata
  · rw [if_neg h3]
    by_cases h4 : (sub'.alignment == AlignmentKind.alignSequential &&
        al == AlignmentKind.alignSequential) = true
    · rw [if_pos h4]
      simp only [SequenceIR.snd_substituteNodeWithSubgraph]
      have hdata2 : ((acc.setPayload j (Elem.seq sub')).substituteNodeWithSubgraph
          j sub').1.getNodeData ind = some e := by
        rw [SequenceIR.getNodeData_substitute_ne _ sub' j ind hne hle1]
        exact hdata1
      have hm0 : ind ≠ mappingApply (substMapping (acc.setPayload j (Elem.seq sub')) sub') 0 := by
        rcases mappingApply_substMapping (acc.setPayload j (Elem.seq sub')) sub' 0 with hz | hz
        · rw [hz]
          exact fun hc => h01 (Or.inl hc)
        · omega
      have hm1 : ind ≠ mappingApply (substMapping (acc.setPayload j (Elem.seq sub')) sub') 1 := by
        rcases mappingApply_substMapping (acc.setPayload j (Elem.seq sub')) sub' 1 with hz | hz
        · rw [hz]
          exact fun hc => h01 (Or.inr hc)
        · omega
      cases hlk : lookupTT ((acc.setPayload j (Elem.seq sub')).substituteNodeWithSubgraph
          j sub').1.timeTable j with
      | some t0 =>
        simp only
        cases ham : (applyMappedTimes ((acc.setPayload j (Elem.seq sub')).substituteNodeWithSubgraph
            j sub').1 sub' t0 (substMapping (acc.setPayload j (Elem.seq sub')) sub')).2 with
        | some err =>
          simp only
          rw [getNodeData_congr_nodes _ ((acc.setPayload j
              (Elem.seq sub')).substituteNodeWithSubgraph j sub').1
            (applyMappedTimes_nodes _ _ sub' t0) ind]
          exact hdata2
        | none =>
          simp only
          rw [SequenceIR.getNodeData_removeNodeRetainEdges_ne _ ind _ hm1,
            SequenceIR.getNodeData_removeNodeRetainEdges_ne _ ind _ hm0]
          rw [getNodeData_congr_nodes _ ((acc.setPayload j
              (Elem.seq sub')).substituteNodeWithSubgraph j sub').1
            (by simp [applyMappedTimes_nodes _ _ sub' t0]) ind]
          exact hdata2
      | none =>
        simp only
        rw [SequenceIR.getNodeData_removeNodeRetainEdges_ne _ ind _ hm1,
          SequenceIR.getNodeData_removeNodeRetainEdges_ne _ ind _ hm0]
        exact hdata2
    · rw [if_neg h4]
      exact hdata1

/-- On a recursively unscheduled input the consolidation pass neither
raises nor ever populates a time table (joint statement for the recursion
and its loop, by induction on a size bound). -/
theorem consolidate_noError_bound : ∀ n : Nat,
    (∀ g : SequenceIR, sizeOf g ≤ n → unscheduledRec g = true →
      (consolidateRecursion g).2 = none ∧ (consolidateRecursion g).1.timeTable = []) ∧
    (∀ (pairs : NodeList) (al : AlignmentKind) (acc : SequenceIR),
      sizeOf pairs ≤ n → acc.timeTable = [] →
      (∀ p ∈ pairs.toList, ∀ s : SequenceIR, p.2 = .seq s → unscheduledRec s = true) →
      (consolidateLoop al acc pairs).2 = none ∧
        (consolidateLoop al acc pairs).1.timeTable = []) := by
  intro n
  induction n with
  | zero =>
    constructor
    · intro g hle
      cases g with
      | mk al ns es tt => simp at hle
    · intro pairs al acc hle hacc _
      cases pairs with
      | nil => simp [consolidateLoop.eq_1, hacc]
      | cons i e r => simp at hle
  | succ n ih =>
    constructor
    · intro g hle hun
      cases g with
      | mk al ns es tt =>
        have htt : tt = [] := unscheduledRec_timeTable _ hun
        have hcheck : SequenceIR.scheduledCheck (.mk al ns es tt) = false :=
          scheduledCheck_of_empty _ (by simp [SequenceIR.timeTable, htt])
        rw [consolidateRecursion]
        rw [if_neg (by rw [hcheck]; exact Bool.false_ne_true)]
        have hsize : sizeOf ns ≤ n := by
          simp at hle
          omega
        exact ih.2 ns al (.mk al ns es tt) hsize (by simp [SequenceIR.timeTable, htt])
          (unscheduledRecList_mem ns (unscheduledRec_nodes _ hun))
    · intro pairs al acc hle hacc hseq
      cases pairs with
      | nil => simp [consolidateLoop.eq_1, hacc]
      | cons ind payload rest =>
        have hler : sizeOf rest ≤ n := by
          simp at hle
          omega
        have hseqr : ∀ p ∈ rest.toList, ∀ s : SequenceIR, p.2 = .seq s →
            unscheduledRec s = true :=
          fun p hp => hseq p (by simp [NodeList.toList, hp])
        cases payload with
        | inNode =>
          rw [consolidateLoop.eq_3 al acc ind _ rest (fun s h => by cases h), ite_self]
          exact ih.2 rest al acc hler hacc hseqr
        | outNode =>
          rw [consolidateLoop.eq_3 al acc ind _ rest (fun s h => by cases h), ite_self]
          exact ih.2 rest al acc hler hacc hseqr
        | inst i =>
          rw [consolidateLoop.eq_3 al acc ind _ rest (fun s h => by cases h), ite_self]
          exact ih.2 rest al acc hler hacc hseqr
        | seq sub =>
          rw [consolidateLoop.eq_2]
          by_cases h01 : ind = 0 ∨ ind = 1
          · rw [if_pos h01]
            exact ih.2 rest al acc hler hacc hseqr
          · rw [if_neg h01]
            by_cases hempty : sub.elements.length = 0
            · rw [if_pos hempty]
              exact ih.2 rest al (acc.removeNodeRetainEdges ind) hler (by simp [hacc]) hseqr
            · rw [if_neg hempty]
              have hsub : unscheduledRec sub = true :=
                hseq (ind, .seq sub) (by simp [NodeList.toList]) sub rfl
              have hsubsize : sizeOf sub ≤ n := by
                simp at hle
                omega
              have hsubres := ih.1 sub hsubsize hsub
              rcases hcr : consolidateRecursion sub with ⟨sub', err⟩
              rw [hcr] at hsubres
              simp only at hsubres
              obtain ⟨herr, _⟩ := hsubres
              subst herr
              have hind : lookupTT acc.timeTable ind = none := by
                rw [hacc]
                rfl
              rcases hst : consolidateStep al acc ind sub' with ⟨acc', err'⟩
              have hstep := consolidateStep_of_unset al acc ind sub' hind
              rw [hst] at hstep
              obtain ⟨htt', herr'⟩ := hstep
              simp only at htt' herr'
              subst herr'
              simp only [hst]
              exact ih.2 rest al acc' hler (htt'.trans hacc) hseqr

/-- On a recursively unscheduled graph, the consolidation pass returns
without error. -/
theorem consolidateRecursion_noError (g : SequenceIR) (h : unscheduledRec g = true) :
    (consolidateRecursion g).2 = none ∧ (consolidateRecursion g).1.timeTable = [] :=
  (consolidate_noError_bound (sizeOf g)).1 g le_rfl h

/-- The consolidation loop preserves the payload at a non-sentinel node
whose index does not occur in the remaining snapshot. -/
theorem consolidateLoop_preserves_payload :
    ∀ (n : Nat) (pairs : NodeList) (al : AlignmentKind) (acc : SequenceIR)
      (ind : Nat) (e : Elem),
      sizeOf pairs ≤ n → ¬(ind = 0 ∨ ind = 1) →
      (∀ p ∈ pairs.toList, p.1 ≠ ind) →
      acc.getNodeData ind = some e →
      (consolidateLoop al acc pairs).1.getNodeData ind = some e := by
  intro n
  induction n with
  | zero =>
    intro pairs al acc ind e hle h01 hkeys hdata
    cases pairs with
    | nil => simpa [consolidateLoop.eq_1] using hdata
    | cons i p r => simp at hle
  | succ n ih =>
    intro pairs al acc ind e hle h01 hkeys hdata
    cases pairs with
    | nil => simpa [consolidateLoop.eq_1] using hdata
    | cons j p rest =>
      have hler : sizeOf rest ≤ n := by
        simp at hle
        omega
      have hkeysr : ∀ q ∈ rest.toList, q.1 ≠ ind :=
        fun q hq => hkeys q (by simp [NodeList.toList, hq])
      have hjne : ind ≠ j :=
        fun hc => hkeys (j, p) (by simp [NodeList.toList]) (by simp [hc])
      cases p with
      | inNode =>
        rw [consolidateLoop.eq_3 al acc j _ rest (fun s h => by cases h), ite_self]
        exact ih rest al acc ind e hler h01 hkeysr hdata
      | outNode =>
        rw [consolidateLoop.eq_3 al acc j _ rest (fun s h => by cases h), ite_self]
        exact ih rest al acc ind e hler h01 hkeysr hdata
      | inst k =>
        rw [consolidateLoop.eq_3 al acc j _ rest (fun s h => by cases h), ite_self]
        exact ih rest al acc ind e hler h01 hkeysr hdata
      | seq sub =>
        rw [consolidateLoop.eq_2]
        by_cases hj01 : j = 0 ∨ j = 1
        · rw [if_pos hj01]
          exact ih rest al acc ind e hler h01 hkeysr hdata
        · rw [if_neg hj01]
          by_cases hempty : sub.elements.length = 0
          · rw [if_pos hempty]
            exact ih rest al (acc.removeNodeRetainEdges j) ind e hler h01 hkeysr
              (by rw [SequenceIR.getNodeData_removeNodeRetainEdges_ne acc ind j hjne]; exact hdata)
          · rw [if_neg hempty]
            rcases hcr : consolidateRecursion sub with ⟨sub', err⟩
            cases err with
            | some er =>
              simp only
              rw [SequenceIR.getNodeData_setPayload_ne acc ind j _ hjne]
              exact hdata
            | none =>
              rcases hst : consolidateStep al acc j sub' with ⟨acc', err'⟩
              have hpres := consolidateStep_preserves_payload al acc j sub' ind e hjne h01 hdata
              rw [hst] at hpres
              simp only at hpres
              cases err' with
              | some er => simpa [hst] using hpres
              | none =>
                simp only [hst]
                exact ih rest al acc' ind e hler h01 hkeysr hpres

/-- Reaching the processed node: when the snapshot contains a node `ind`
holding a nested graph `sub` that consolidates without error to `sub'`
meeting rule 3's condition (degenerate alignment, exactly one element),
and the whole snapshot is error-free (unscheduled at every level), the
loop leaves node `ind` holding `sub'`'s single element, in place. -/
theorem consolidateLoop_rule3_reach :
    ∀ (n : Nat) (pairs : NodeList) (al : AlignmentKind) (acc : SequenceIR)
      (ind : Nat) (sub sub' : SequenceIR),
      sizeOf pairs ≤ n →
      acc.timeTable = [] →
      (∀ p ∈ pairs.toList, ∀ s : SequenceIR, p.2 = .seq s → unscheduledRec s = true) →
      (ind, Elem.seq sub) ∈ pairs.toList →
      (pairs.toList.map (·.1)).Nodup →
      ¬(ind = 0 ∨ ind = 1) →
      (∃ w, acc.getNodeData ind = some w) →
      sub.elements.length ≠ 0 →
      consolidateRecursion sub = (sub', none) →
      (degenerateAlignment sub'.alignment && sub'.elements.length == 1) = true →
      (consolidateLoop al acc pairs).1.getNodeData ind =
        some (sub'.elements.headD .inNode) := by
  intro n
  induction n with
  | zero =>
    intro pairs al acc ind sub sub' hle _ _ hmem _ _ _ _ _ _
    cases pairs with
    | nil => simp [NodeList.toList] at hmem
    | cons i p r => simp at hle
  | succ n ih =>
    intro pairs al acc ind sub sub' hle htt hseq hmem hnodup h01 hex hne hcr h3
    cases pairs with
    | nil => simp [NodeList.toList] at hmem
    | cons j p rest =>
      have hler : sizeOf rest ≤ n := by
        simp at hle
        omega
      have hseqr : ∀ q ∈ rest.toList, ∀ s : SequenceIR, q.2 = .seq s →
          unscheduledRec s = true :=
        fun q hq => hseq q (by simp [NodeList.toList, hq])
      have hnodupr : (rest.toList.map (·.1)).Nodup := by
        simp only [NodeList.toList, List.map_cons, List.nodup_cons] at hnodup
        exact hnodup.2
      simp only [NodeList.toList, List.mem_cons] at hmem
      rcases hmem with hh | hh
      · -- the head pair is the node under scrutiny
        have hj : j = ind := congrArg Prod.fst hh.symm
        have hp : p = Elem.seq sub := congrArg Prod.snd hh.symm
        subst hj
        subst hp
        rw [consolidateLoop.eq_2, if_neg h01, if_neg hne]
        simp only [hcr]
        rw [consolidateStep_rule3 al acc j sub' h3]
        simp only
        obtain ⟨w, hw⟩ := hex
        have hd1 : (acc.setPayload j (Elem.seq sub')).getNodeData j = some (Elem.seq sub') :=
          SequenceIR.getNodeData_setPayload_found acc j _ w hw
        have hd2 : ((acc.setPayload j (Elem.seq sub')).setPayload j
            (sub'.elements.headD .inNode)).getNodeData j =
            some (sub'.elements.headD .inNode) :=
          SequenceIR.getNodeData_setPayload_found _ j _ _ hd1
        have hkeysr : ∀ q ∈ rest.toList, q.1 ≠ j := by
          intro q hq hc
          simp only [NodeList.toList, List.map_cons, List.nodup_cons] at hnodup
          exact hnodup.1 (hc ▸ List.mem_map_of_mem (·.1) hq)
        exact consolidateLoop_preserves_payload (sizeOf rest) rest al _ j _ le_rfl h01
          hkeysr hd2
      · -- the node under scrutiny sits further down the snapshot
        have hjne : j ≠ ind := by
          intro hc
          simp only [NodeList.toList, List.map_cons, List.nodup_cons] at hnodup
          exact hnodup.1 (hc ▸ List.mem_map_of_mem (·.1) hh)
        cases p with
        | inNode =>
          rw [consolidateLoop.eq_3 al acc j _ rest (fun s h => by cases h), ite_self]
          exact ih rest al acc ind sub sub' hler htt hseqr hh hnodupr h01 hex hne hcr h3
        | outNode =>
          rw [consolidateLoop.eq_3 al acc j _ rest (fun s h => by cases h), ite_self]
          exact ih rest al acc ind sub sub' hler htt hseqr hh hnodupr h01 hex hne hcr h3
        | inst k =>
          rw [consolidateLoop.eq_3 al acc j _ rest (fun s h => by cases h), ite_self]
          exact ih rest al acc ind sub sub' hler htt hseqr hh hnodupr h01 hex hne hcr h3
        | seq psub =>
          rw [consolidateLoop.eq_2]
          by_cases hj01 : j = 0 ∨ j = 1
          · rw [if_pos hj01]
            exact ih rest al acc ind sub sub' hler htt hseqr hh hnodupr h01 hex hne hcr h3
          · rw [if_neg hj01]
            by_cases hempty : psub.elements.length = 0
            · rw [if_pos hempty]
              obtain ⟨w, hw⟩ := hex
              exact ih rest al (acc.removeNodeRetainEdges j) ind sub sub' hler (by simp [htt])
                hseqr hh hnodupr h01
                ⟨w, by rw [SequenceIR.getNodeData_removeNodeRetainEdges_ne acc ind j
                  (Ne.symm hjne)]; exact hw⟩ hne hcr h3
            · rw [if_neg hempty]
              have hpsub : unscheduledRec psub = true :=
                hseq (j, .seq psub) (by simp [NodeList.toList]) psub rfl
              have hpsubres := consolidateRecursion_noError psub hpsub
              rcases hpcr : consolidateRecursion psub with ⟨psub', perr⟩
              rw [hpcr] at hpsubres
              simp only at hpsubres
              obtain ⟨hperr, _⟩ := hpsubres
              subst hperr
              have hindtt : lookupTT acc.timeTable j = none := by
                rw [htt]
                rfl
              rcases hst : consolidateStep al acc j psub' with ⟨acc', err'⟩
              have hstep := consolidateStep_of_unset al acc j psub' hindtt
              rw [hst] at hstep
              obtain ⟨htt', herr'⟩ := hstep
              simp only at htt' herr'
              subst herr'
              simp only [hst]
              obtain ⟨w, hw⟩ := hex
              have hpres := consolidateStep_preserves_payload al acc j psub' ind w
                (Ne.symm hjne) h01 hw
              rw [hst] at hpres
              simp only at hpres
              exact ih rest al acc' ind sub sub' hler (htt'.trans htt) hseqr hh hnodupr h01
                ⟨w, hpres⟩ hne hcr h3

/-! ## Claim C3 -/

/-- C3 counterexample: on a single-interior-node sequential subgraph
inside a sequential parent, the pass does not inline via subgraph
substitution.  After the pass, node 2 still exists and holds the single
child in place (rule 3's payload replacement), while subgraph substitution
would have removed node 2 and produced the child at fresh index 5.  The
claim as stated — that the result is the subgraph-substitution one — is
false at this input. -/
theorem C3_counterexample_rule3_wins :
    (consolidateRecursion C3graph).1.getNodeData 2 = some (.inst ⟨10, 7⟩) ∧
    (consolidateRecursion C3graph).1.nodeIndices = [0, 1, 2] ∧
    (inlineViaSubgraphSubstitution C3graph 2 C3sub).nodeIndices = [0, 1, 5] ∧
    (consolidateRecursion C3graph).1 ≠ inlineViaSubgraphSubstitution C3graph 2 C3sub := by
  refine ⟨rfl, rfl, rfl, fun hcontra => ?_⟩
  exact absurd (congrArg SequenceIR.nodeIndices hcontra) (by decide)

/-- C3 amended: when a nested graph has sequential alignment and, after
its own consolidation, exactly one interior element, and the parent also
has sequential alignment (so rules 3 and 4 both apply), the pass applies
rule 3, not rule 4: the node keeps its index and its payload is replaced
in place with the single child (the `if`/`elif` in the code tries rule 3
first). -/
theorem C3_amended_rule3_priority :
    ∀ (g : SequenceIR) (ind : Nat) (sub sub' : SequenceIR) (e : Elem),
      unscheduledRec g = true →
      (g.nodes.toList.map (·.1)).Nodup →
      (ind, Elem.seq sub) ∈ g.nodes.toList →
      ¬(ind = 0 ∨ ind = 1) →
      g.alignment = .alignSequential →
      sub.elements.length ≠ 0 →
      consolidateRecursion sub = (sub', none) →
      sub'.alignment = .alignSequential →
      sub'.elements = [e] →
      (consolidateRecursion g).1.getNodeData ind = some e := by
  intro g ind sub sub' e hun hnodup hmem h01 _ hne hcr halign helems
  have h3 : (degenerateAlignment sub'.alignment && sub'.elements.length == 1) = true := by
    rw [halign, helems]
    rfl
  have hhead : sub'.elements.headD .inNode = e := by
    rw [helems]
    rfl
  cases g with
  | mk al ns es tt =>
    have htt : tt = [] := unscheduledRec_timeTable _ hun
    have hcheck : SequenceIR.scheduledCheck (.mk al ns es tt) = false :=
      scheduledCheck_of_empty _ (by simp [SequenceIR.timeTable, htt])
    rw [consolidateRecursion, if_neg (by rw [hcheck]; exact Bool.false_ne_true)]
    have hex : ∃ w, SequenceIR.getNodeData (.mk al ns es tt) ind = some w := by
      have hs : ((SequenceIR.nodes (.mk al ns es tt)).toList.find?
          (fun p => p.1 == ind)).isSome :=
        List.find?_isSome.mpr ⟨(ind, Elem.seq sub), hmem, by simp⟩
      obtain ⟨q, hq⟩ := Option.isSome_iff_exists.mp hs
      exact ⟨q.2, by simp [SequenceIR.getNodeData, hq]⟩
    rw [← hhead]
    exact consolidateLoop_rule3_reach (sizeOf ns) ns al (.mk al ns es tt) ind sub sub'
      le_rfl (by simp [SequenceIR.timeTable, htt])
      (unscheduledRecList_mem ns (unscheduledRec_nodes _ hun)) hmem hnodup h01 hex hne hcr h3

/-- Witness for the amended C3 at the concrete graph of the
counterexample. -/
theorem C3_amended_rule3_priority_witness :
    unscheduledRec C3graph = true ∧
      (consolidateRecursion C3graph).1.getNodeData 2 = some (.inst ⟨10, 7⟩) :=
  ⟨rfl,
    C3_amended_rule3_priority C3graph 2 C3sub C3sub (.inst ⟨10, 7⟩) rfl (by decide)
      (List.mem_cons_of_mem _ (List.mem_cons_of_mem _ (List.mem_cons_self _ _)))
      (by decide) rfl (by decide) rfl rfl rfl⟩

/-- Witness for C9 at a concrete unscheduled nested graph. -/
theorem C9_consolidation_preserves_empty_time_table_witness :
    exNested.scheduledCheck = false ∧
      (consolidateRecursion exNested).1.timeTable = exNested.timeTable :=
  ⟨rfl, (C9_consolidation_preserves_empty_time_table exNested rfl).1⟩

/-! ## Claim C10 -/

/-- The recursive scheduled-elements listing raises exactly when some
element at some nesting depth has an unset entry, and the only error it
ever raises is the UnscheduledError (joint statement for the graph and
node-list levels, by induction on a size bound). -/
theorem recursiveScheduledElements_err_bound : ∀ n : Nat,
    (∀ (g : SequenceIR) (off : Int), sizeOf g ≤ n →
      isUnscheduledError (recursiveScheduledElements g off) = hasUnsetTime g ∧
      ∀ e, recursiveScheduledElements g off = .error e → e = .unscheduledError) ∧
    (∀ (ns : NodeList) (tt : List (Nat × Int)) (off : Int), sizeOf ns ≤ n →
      isUnscheduledError (recursiveScheduledElementsList tt off ns) =
        hasUnsetTimeList tt ns ∧
      ∀ e, recursiveScheduledElementsList tt off ns = .error e →
        e = .unscheduledError) := by
  intro n
  induction n with
  | zero =>
    constructor
    · intro g off hle
      cases g with
      | mk al ns es tt => simp at hle
    · intro ns tt off hle
      cases ns with
      | nil => simp [recursiveScheduledElementsList, hasUnsetTimeList, isUnscheduledError]
      | cons i e r => simp at hle
  | succ n ih =>
    constructor
    · intro g off hle
      cases g with
      | mk al ns es tt =>
        rw [recursiveScheduledElements, hasUnsetTime]
        exact ih.2 ns tt off (by simp at hle; omega)
    · intro ns tt off hle
      cases ns with
      | nil => simp [recursiveScheduledElementsList, hasUnsetTimeList, isUnscheduledError]
      | cons ind el rest =>
        have hler : sizeOf rest ≤ n := by
          simp at hle
          omega
        have ihrest := ih.2 rest tt off hler
        cases el with
        | seq s =>
          rw [recursiveScheduledElementsList, hasUnsetTimeList]
          by_cases h01 : ind = 0 ∨ ind = 1
          · rw [if_pos h01, if_pos h01]
            simpa using ihrest
          · rw [if_neg h01, if_neg h01]
            cases hlk : lookupTT tt ind with
            | none =>
              refine ⟨by simp [isUnscheduledError], ?_⟩
              intro e2 h2
              cases h2
              rfl
            | some t =>
              have ihsub := ih.1 s (t + off) (by simp at hle; omega)
              rcases hsub : recursiveScheduledElements s (t + off) with e | xs <;>
                rw [hsub] at ihsub <;> simp only [hsub]
              · have he : e = PyErr.unscheduledError := ihsub.2 e rfl
                subst he
                have hs : hasUnsetTime s = true := by
                  simpa [isUnscheduledError] using ihsub.1
                refine ⟨by simp [isUnscheduledError, hs], ?_⟩
                intro e2 h2
                cases h2
                rfl
              · have hs : hasUnsetTime s = false := by
                  simpa [isUnscheduledError] using ihsub.1
                rcases hrest : recursiveScheduledElementsList tt off rest with e | ys <;>
                  rw [hrest] at ihrest <;> simp only [hrest]
                · have he : e = PyErr.unscheduledError := ihrest.2 e rfl
                  subst he
                  have hr : hasUnsetTimeList tt rest = true := by
                    simpa [isUnscheduledError] using ihrest.1
                  refine ⟨by simp [isUnscheduledError, hs, hr], ?_⟩
                  intro e2 h2
                  cases h2
                  rfl
                · have hr : hasUnsetTimeList tt rest = false := by
                    simpa [isUnscheduledError] using ihrest.1
                  refine ⟨by simp [isUnscheduledError, hs, hr], ?_⟩
                  intro e2 h2
                  cases h2
        | inNode =>
          rw [recursiveScheduledElementsList, hasUnsetTimeList]
          all_goals try (intro sub hcon; cases hcon)
          by_cases h01 : ind = 0 ∨ ind = 1
          · rw [if_pos h01, if_pos h01]
            simpa using ihrest
          · rw [if_neg h01, if_neg h01]
            cases hlk : lookupTT tt ind with
            | none =>
              refine ⟨by simp [isUnscheduledError], ?_⟩
              intro e2 h2
              cases h2
              rfl
            | some t =>
              rcases hrest : recursiveScheduledElementsList tt off rest with e | ys <;>
                rw [hrest] at ihrest <;> simp only [hrest]
              · have he : e = PyErr.unscheduledError := ihrest.2 e rfl
                subst he
                have hr : hasUnsetTimeList tt rest = true := by
                  simpa [isUnscheduledError] using ihrest.1
                refine ⟨by simp [isUnscheduledError, hr], ?_⟩
                intro e2 h2
                cases h2
                rfl
              · have hr : hasUnsetTimeList tt rest = false := by
                  simpa [isUnscheduledError] using ihrest.1
                refine ⟨by simp [isUnscheduledError, hr], ?_⟩
                intro e2 h2
                cases h2
        | outNode =>
          rw [recursiveScheduledElementsList, hasUnsetTimeList]
          all_goals try (intro sub hcon; cases hcon)
          by_cases h01 : ind = 0 ∨ ind = 1
          · rw [if_pos h01, if_pos h01]
            simpa using ihrest
          · rw [if_neg h01, if_neg h01]
            cases hlk : lookupTT tt ind with
            | none =>
              refine ⟨by simp [isUnscheduledError], ?_⟩
              intro e2 h2
              cases h2
              rfl
            | some t =>
              rcases hrest : recursiveScheduledElementsList tt off rest with e | ys <;>
                rw [hrest] at ihrest <;> simp only [hrest]
              · have he : e = PyErr.unscheduledError := ihrest.2 e rfl
                subst he
                have hr : hasUnsetTimeList tt rest = true := by
                  simpa [isUnscheduledError] using ihrest.1
                refine ⟨by simp [isUnscheduledError, hr], ?_⟩
                intro e2 h2
                cases h2
                rfl
              · have hr : hasUnsetTimeList tt rest = false := by
                  simpa [isUnscheduledError] using ihrest.1
                refine ⟨by simp [isUnscheduledError, hr], ?_⟩
                intro e2 h2
                cases h2
        | inst k =>
          rw [recursiveScheduledElementsList, hasUnsetTimeList]
          all_goals try (intro sub hcon; cases hcon)
          by_cases h01 : ind = 0 ∨ ind = 1
          · rw [if_pos h01, if_pos h01]
            simpa using ihrest
          · rw [if_neg h01, if_neg h01]
            cases hlk : lookupTT tt ind with
            | none =>
              refine ⟨by simp [isUnscheduledError], ?_⟩
              intro e2 h2
              cases h2
              rfl
            | some t =>
              rcases hrest : recursiveScheduledElementsList tt off rest with e | ys <;>
                rw [hrest] at ihrest <;> simp only [hrest]
              · have he : e = PyErr.unscheduledError := ihrest.2 e rfl
                subst he
                have hr : hasUnsetTimeList tt rest = true := by
                  simpa [isUnscheduledError] using ihrest.1
                refine ⟨by simp [isUnscheduledError, hr], ?_⟩
                intro e2 h2
                cases h2
                rfl
              · have hr : hasUnsetTimeList tt rest = false := by
                  simpa [isUnscheduledError] using ihrest.1
                refine ⟨by simp [isUnscheduledError, hr], ?_⟩
                intro e2 h2
                cases h2

theorem list_any_mergeSort (l : List α) (r : α → α → Bool) (p : α → Bool) :
    (l.mergeSort r).any p = l.any p := by
  refine Bool.eq_iff_iff.mpr ?_
  simp only [List.any_eq_true]
  exact ⟨fun ⟨x, hx, hp⟩ => ⟨x, (List.mergeSort_perm l r).mem_iff.mp hx, hp⟩,
         fun ⟨x, hx, hp⟩ => ⟨x, (List.mergeSort_perm l r).mem_iff.mpr hx, hp⟩⟩

theorem any_filter_map (l : List α) (q : α → Bool) (f : α → β) (p : β → Bool) :
    ((l.filter q).map f).any p = l.any (fun a => q a && p (f a)) := by
  induction l with
  | nil => rfl
  | cons a r ih =>
    by_cases h : q a = true <;> simp [List.filter_cons, h, ih]

/-- C10: `scheduled_elements(recursive=True)` fails exactly when some
element at some nesting depth (leaf instruction or nested graph) has an
unset time-table entry, and the only error it ever raises is the
UnscheduledError `PulseError`; on success its entries carry plain resolved
times (`Int`, never an unset `Option`), whereas the non-recursive mode
pairs exactly the unset top-level entries with `none`. -/
theorem C10_recursive_scheduled_elements_unscheduled_error (g : SequenceIR) :
    isUnscheduledError g.scheduledElementsRecursive = hasUnsetTime g ∧
    failsOnlyAsUnscheduled g.scheduledElementsRecursive = true ∧
    g.scheduledElementsNonRecursive.any (fun x => x.1.isNone) = g.hasUnsetTopLevel := by
  have hb := (recursiveScheduledElements_err_bound (sizeOf g)).1 g 0 le_rfl
  refine ⟨?_, ?_, ?_⟩
  · rw [SequenceIR.scheduledElementsRecursive]
    rcases h : recursiveScheduledElements g 0 with e | l <;> rw [h] at hb <;>
      simpa [isUnscheduledError] using hb.1
  · rw [SequenceIR.scheduledElementsRecursive]
    rcases h : recursiveScheduledElements g 0 with e | l <;> rw [h] at hb
    · have he := hb.2 e rfl
      subst he
      rfl
    · rfl
  · simp only [SequenceIR.scheduledElementsNonRecursive, SequenceIR.hasUnsetTopLevel]
    split
    · rw [list_any_mergeSort, any_filter_map]
    · rw [any_filter_map]


theorem frameEq_eq_true_iff (x y : FrameV) : frameEq x y = true ↔ x = y := by
  cases x <;> cases y <;> simp [frameEq, and_assoc]

theorem memBy_setAdd_frame (l : List FrameV) (x f : FrameV) :
    memBy frameEq f (setAdd frameEq l x) = (memBy frameEq f l || frameEq f x) := by
  rw [setAdd]
  by_cases hm : memBy frameEq x l = true
  · rw [if_pos hm]
    cases hfx : frameEq f x with
    | false => simp [hfx]
    | true =>
      have hfe : f = x := (frameEq_eq_true_iff f x).mp hfx
      subst hfe
      simp [hm]
  · rw [if_neg hm]
    simp [memBy, List.any_append]

theorem memBy_setUnion_frame (l2 : List FrameV) : ∀ (l1 : List FrameV) (f : FrameV),
    memBy frameEq f (setUnion frameEq l1 l2) =
      (memBy frameEq f l1 || memBy frameEq f l2) := by
  induction l2 with
  | nil =>
    intro l1 f
    simp [setUnion, memBy]
  | cons a r ih =>
    intro l1 f
    have hstep : setUnion frameEq l1 (a :: r) = setUnion frameEq (setAdd frameEq l1 a) r := rfl
    rw [hstep, ih, memBy_setAdd_frame]
    simp [memBy, List.any_cons, Bool.or_assoc]

theorem mixedFramesQ_err_bound : ∀ n : Nat,
    (∀ p : PulseIR, sizeOf p ≤ n →
      errKind p.mixedFramesQ =
        (if hasUnboundGeneric p then some PyErr.malformedProgram else none)) ∧
    (∀ els : PElemList, sizeOf els ≤ n → ∀ acc : List MixedFrameV,
      errKind (mixedFramesQAux acc els) =
        (if hasUnboundGenericList els then some PyErr.malformedProgram else none)) := by
  intro n
  induction n with
  | zero =>
    constructor
    · intro p hle
      cases p with
      | mk al els => simp at hle
    · intro els hle acc
      cases els with
      | nil => simp [mixedFramesQAux, hasUnboundGenericList, errKind]
      | cons e rest => simp at hle
  | succ n ih =>
    constructor
    · intro p hle
      cases p with
      | mk al els =>
        rw [PulseIR.mixedFramesQ, hasUnboundGeneric]
        exact ih.2 els (by simp at hle; omega) []
    · intro els hle acc
      cases els with
      | nil => simp [mixedFramesQAux, hasUnboundGenericList, errKind]
      | cons e rest =>
        have hler : sizeOf rest ≤ n := by
          simp at hle
          omega
        have ihrest := ih.2 rest hler
        cases e with
        | gen le f =>
          cases le with
          | none =>
            cases f with
            | none =>
              simp only [mixedFramesQAux, hasUnboundGenericList]
              simp [errKind]
            | some fv =>
              simp only [mixedFramesQAux, hasUnboundGenericList]
              simp [errKind]
          | some lev =>
            cases f with
            | none =>
              simp only [mixedFramesQAux, hasUnboundGenericList]
              simp [errKind]
            | some fv =>
              simp only [mixedFramesQAux, hasUnboundGenericList]
              simpa using ihrest (setAdd mixedFrameEq acc ⟨false, lev, fv⟩)
        | acq q =>
          simp only [mixedFramesQAux, hasUnboundGenericList]
          simpa using ihrest acc
        | sub p =>
          have ihp := ih.1 p (by simp at hle; omega)
          simp only [mixedFramesQAux, hasUnboundGenericList]
          rcases hm : p.mixedFramesQ with err | l <;> rw [hm] at ihp <;> simp only [hm]
          · by_cases hub : hasUnboundGeneric p = true
            · rw [hub] at ihp
              simp [errKind] at ihp
              subst ihp
              simp [errKind, hub]
            · rw [Bool.not_eq_true] at hub
              rw [hub] at ihp
              simp [errKind] at ihp
          · by_cases hub : hasUnboundGeneric p = true
            · rw [hub] at ihp
              simp [errKind] at ihp
            · rw [Bool.not_eq_true] at hub
              simp only [hub, Bool.false_or]
              simpa using ihrest (setUnion mixedFrameEq acc l)

theorem logicalElementsQ_err_bound : ∀ n : Nat,
    (∀ p : PulseIR, sizeOf p ≤ n →
      errKind p.logicalElementsQ =
        (if hasGenericNoLE p then some PyErr.attributeError else none)) ∧
    (∀ els : PElemList, sizeOf els ≤ n → ∀ acc : List LogicalElementV,
      errKind (logicalElementsQAux acc els) =
        (if hasGenericNoLEList els then some PyErr.attributeError else none)) := by
  intro n
  induction n with
  | zero =>
    constructor
    · intro p hle
      cases p with
      | mk al els => simp at hle
    · intro els hle acc
      cases els with
      | nil => simp [logicalElementsQAux, hasGenericNoLEList, errKind]
      | cons e rest => simp at hle
  | succ n ih =>
    constructor
    · intro p hle
      cases p with
      | mk al els =>
        rw [PulseIR.logicalElementsQ, hasGenericNoLE]
        exact ih.2 els (by simp at hle; omega) []
    · intro els hle acc
      cases els with
      | nil => simp [logicalElementsQAux, hasGenericNoLEList, errKind]
      | cons e rest =>
        have hler : sizeOf rest ≤ n := by
          simp at hle
          omega
        have ihrest := ih.2 rest hler
        cases e with
        | gen le f =>
          cases le with
          | none =>
            simp only [logicalElementsQAux, hasGenericNoLEList]
            simp [errKind]
          | some lev =>
            simp only [logicalElementsQAux, hasGenericNoLEList]
            simpa using ihrest (setAdd logicalElementEq acc lev)
        | acq q =>
          simp only [logicalElementsQAux, hasGenericNoLEList]
          simpa using ihrest (setAdd logicalElementEq acc q)
        | sub p =>
          have ihp := ih.1 p (by simp at hle; omega)
          simp only [logicalElementsQAux, hasGenericNoLEList]
          rcases hm : p.logicalElementsQ with err | l <;> rw [hm] at ihp <;> simp only [hm]
          · by_cases hub : hasGenericNoLE p = true
            · rw [hub] at ihp
              simp [errKind] at ihp
              subst ihp
              simp [errKind, hub]
            · rw [Bool.not_eq_true] at hub
              rw [hub] at ihp
              simp [errKind] at ihp
          · by_cases hub : hasGenericNoLE p = true
            · rw [hub] at ihp
              simp [errKind] at ihp
            · rw [Bool.not_eq_true] at hub
              simp only [hub, Bool.false_or]
              simpa using ihrest (setUnion logicalElementEq acc l)

theorem framesQ_mem_bound : ∀ n : Nat,
    (∀ p : PulseIR, sizeOf p ≤ n → ∀ f : FrameV,
      memBy frameEq f p.framesQ = frameReferenced f p) ∧
    (∀ els : PElemList, sizeOf els ≤ n → ∀ (acc : List FrameV) (f : FrameV),
      memBy frameEq f (framesQAux acc els) =
        (memBy frameEq f acc || frameReferencedList f els)) := by
  intro n
  induction n with
  | zero =>
    constructor
    · intro p hle
      cases p with
      | mk al els => simp at hle
    · intro els hle acc f
      cases els with
      | nil => simp [framesQAux, frameReferencedList]
      | cons e rest => simp at hle
  | succ n ih =>
    constructor
    · intro p hle f
      cases p with
      | mk al els =>
        rw [PulseIR.framesQ, frameReferenced]
        rw [ih.2 els (by simp at hle; omega) [] f]
        simp [memBy]
    · intro els hle acc f
      cases els with
      | nil => simp [framesQAux, frameReferencedList]
      | cons e rest =>
        have hler : sizeOf rest ≤ n := by
          simp at hle
          omega
        cases e with
        | gen le fr =>
          cases fr with
          | none =>
            simp only [framesQAux, frameReferencedList]
            rw [ih.2 rest hler acc f]
            simp
          | some fv =>
            simp only [framesQAux, frameReferencedList]
            rw [ih.2 rest hler (setAdd frameEq acc fv) f, memBy_setAdd_frame]
            simp [Bool.or_assoc]
        | acq q =>
          simp only [framesQAux, frameReferencedList]
          rw [ih.2 rest hler acc f]
          simp
        | sub p =>
          have ihp := ih.1 p (by simp at hle; omega) f
          simp only [framesQAux, frameReferencedList]
          rw [ih.2 rest hler (setUnion frameEq acc p.framesQ) f, memBy_setUnion_frame, ihp]
          simp [Bool.or_assoc]

/-- C6 counterexample: for the program `C6P`, whose single generic
instruction lacks a logical element, the three queries behave three
different ways — `frames()` succeeds and returns the one referenced frame,
`logical_elements()` raises Python `AttributeError` (the missing-attribute
crash in the `else` branch), and only `mixed_frames()` raises the
documented MalformedProgramError `PulseError` — refuting the claim that
each of the three fails with MalformedProgramError. -/
theorem C6_counterexample_queries_diverge :
    hasUnboundGeneric C6P = true ∧
    C6P.framesQ = [FrameV.qubitFrame 0] ∧
    C6P.logicalElementsQ = Except.error PyErr.attributeError ∧
    C6P.mixedFramesQ = Except.error PyErr.malformedProgram :=
  ⟨rfl, rfl, rfl, rfl⟩

/-- C6 (amended): `mixed_frames()` fails, with MalformedProgramError,
exactly when some generic instruction at some nesting depth lacks a
logical element or a frame; `logical_elements()` fails, with Python
`AttributeError` rather than MalformedProgramError, exactly when some
generic instruction at some depth lacks a logical element; `frames()`
never fails, and a frame is in its result set exactly when some generic
instruction at some depth references an equal frame. -/
theorem C6_amended_query_failures (p : PulseIR) :
    errKind p.mixedFramesQ =
      (if hasUnboundGeneric p then some PyErr.malformedProgram else none) ∧
    errKind p.logicalElementsQ =
      (if hasGenericNoLE p then some PyErr.attributeError else none) ∧
    ∀ f : FrameV, memBy frameEq f p.framesQ = frameReferenced f p :=
  ⟨(mixedFramesQ_err_bound (sizeOf p)).1 p le_rfl,
   (logicalElementsQ_err_bound (sizeOf p)).1 p le_rfl,
   fun f => (framesQ_mem_bound (sizeOf p)).1 p le_rfl f⟩


theorem depthElem_le_depthList : ∀ ns : NodeList,
    ∀ pr ∈ ns.toList, pr.2.depthElem ≤ ns.depthList
  | .nil, pr, hpr => by simp [NodeList.toList] at hpr
  | .cons i e r, pr, hpr => by
    rw [NodeList.toList] at hpr
    rw [NodeList.depthList]
    rcases List.mem_cons.mp hpr with hpr | hpr
    · subst hpr
      exact le_max_left _ _
    · exact (depthElem_le_depthList r pr hpr).trans (le_max_right _ _)

theorem find?_of_keys_contains (ns : NodeList) (p : Nat)
    (h : ns.keys.contains p = true) :
    ∃ e, ns.toList.find? (fun q => q.1 == p) = some (p, e) ∧ (p, e) ∈ ns.toList := by
  have hmem : p ∈ ns.toList.map (·.1) := by
    simpa [NodeList.keys] using h
  obtain ⟨pr, hpr, hpe⟩ := List.mem_map.mp hmem
  have hsome : (ns.toList.find? (fun q => q.1 == p)).isSome := by
    rw [List.find?_isSome]
    exact ⟨pr, hpr, by simp [hpe]⟩
  obtain ⟨pr2, hpr2⟩ := Option.isSome_iff_exists.mp hsome
  have hkey : pr2.1 = p := by
    have := List.find?_some hpr2
    simpa using this
  have hmem2 := List.mem_of_find?_eq_some hpr2
  refine ⟨pr2.2, ?_, ?_⟩
  · rw [hpr2]
    rw [show (p, pr2.2) = pr2 from by rw [← hkey]]
  · rw [show (p, pr2.2) = pr2 from by rw [← hkey]]
    exact hmem2

theorem durationSafeList_payload : ∀ ns : NodeList, durationSafeList ns = true →
    ∀ pr ∈ ns.toList, ¬(pr.1 = 0 ∨ pr.1 = 1) →
      (∃ i, pr.2 = Elem.inst i) ∨ (∃ s, pr.2 = Elem.seq s ∧ durationSafe s = true)
  | .nil, _, pr, hpr, _ => by simp [NodeList.toList] at hpr
  | .cons i e r, h, pr, hpr, hpr01 => by
    rw [NodeList.toList] at hpr
    cases e with
    | inst k =>
      rw [durationSafeList, Bool.and_eq_true] at h
      rcases List.mem_cons.mp hpr with hpr | hpr
      · subst hpr
        exact Or.inl ⟨k, rfl⟩
      · exact durationSafeList_payload r h.2 pr hpr hpr01
    | seq sub =>
      rw [durationSafeList, Bool.and_eq_true] at h
      rcases List.mem_cons.mp hpr with hpr | hpr
      · subst hpr
        have h1 := h.1
        rw [if_neg hpr01] at h1
        exact Or.inr ⟨sub, rfl, h1⟩
      · exact durationSafeList_payload r h.2 pr hpr hpr01
    | inNode =>
      rw [durationSafeList, Bool.and_eq_true] at h
      all_goals try (intro z hcon; cases hcon)
      rcases List.mem_cons.mp hpr with hpr | hpr
      · subst hpr
        have h1 := h.1
        rw [if_neg hpr01] at h1
        cases h1
      · exact durationSafeList_payload r h.2 pr hpr hpr01
    | outNode =>
      rw [durationSafeList, Bool.and_eq_true] at h
      all_goals try (intro z hcon; cases hcon)
      rcases List.mem_cons.mp hpr with hpr | hpr
      · subst hpr
        have h1 := h.1
        rw [if_neg hpr01] at h1
        cases h1
      · exact durationSafeList_payload r h.2 pr hpr hpr01

/-- C7 counterexample: on `C7G` — the Output sentinel's only direct
predecessor is the In sentinel, whose payload is a bare Python `object()`
— the claim says the duration query returns `None` (the predecessor's
offset and duration are unresolved); the code instead evaluates
`.duration` on the sentinel payload and crashes with Python
`AttributeError`, which the `except TypeError` clause does not catch. -/
theorem C7_counterexample_sentinel_predecessor_crashes :
    C7G.duration = Except.error PyErr.attributeError ∧
    specDuration C7G = none ∧
    C7G.duration ≠ Except.ok (specDuration C7G) := by
  have hpreds : C7G.predecessorIndices 1 = [0] := rfl
  have hget : C7G.getNodeData 0 = some Elem.inNode := rfl
  have hlk : lookupTT C7G.timeTable 0 = none := rfl
  have hdur : C7G.duration = Except.error PyErr.attributeError := by
    show durationF (1 + 1) C7G = Except.error PyErr.attributeError
    rw [durationF]
    simp only [hpreds, List.isEmpty_cons, Bool.false_eq_true, if_false]
    rw [durationFold]
    simp only [hget, elemDurationF]
  have hspec : specDuration C7G = none := by
    show specDurationF (1 + 1) C7G = none
    rw [specDurationF]
    simp only [hpreds, List.isEmpty_cons, Bool.false_eq_true, if_false]
    rw [specDurationFold]
    simp only [hget, specElemDurationF, hlk]
  refine ⟨hdur, hspec, ?_⟩
  rw [hdur]
  intro hcontra
  exact Except.noConfusion hcontra

theorem duration_eq_spec_bound : ∀ fuel : Nat, ∀ g : SequenceIR,
    g.depth < fuel → durationSafe g = true →
    durationF fuel g = Except.ok (specDurationF fuel g) := by
  intro fuel
  induction fuel with
  | zero =>
    intro g hd
    exact absurd hd (by omega)
  | succ fuel ih =>
    intro g hd hsafe
    cases g with
    | mk al ns es tt =>
      rw [SequenceIR.depth] at hd
      rw [durationSafe, Bool.and_eq_true] at hsafe
      have hmemfacts : ∀ p ∈ SequenceIR.predecessorIndices (.mk al ns es tt) 1,
          ¬(p = 0 ∨ p = 1) ∧ ns.keys.contains p = true := by
        intro p hp
        rw [SequenceIR.predecessorIndices] at hp
        simp only [SequenceIR.edges] at hp
        obtain ⟨pr, hpr, hpe⟩ := List.mem_map.mp hp
        have hall := List.all_eq_true.mp hsafe.1 pr hpr
        rw [Bool.and_eq_true] at hall
        constructor
        · rw [← hpe, not_or]
          simpa using hall.1
        · rw [← hpe]
          exact hall.2
      have hfold : ∀ ps : List Nat,
          (∀ p ∈ ps, ¬(p = 0 ∨ p = 1) ∧ ns.keys.contains p = true) →
          ∀ acc : Option Int,
          durationFold fuel (.mk al ns es tt) ps acc =
            Except.ok (specDurationFold fuel (.mk al ns es tt) ps acc) := by
        intro ps
        induction ps with
        | nil =>
          intro _ acc
          rw [durationFold, specDurationFold]
        | cons p rest ihps =>
          intro hps acc
          obtain ⟨hp01, hpc⟩ := hps p (List.mem_cons_self p rest)
          obtain ⟨e, hfind, hmem⟩ := find?_of_keys_contains ns p hpc
          have hget : SequenceIR.getNodeData (.mk al ns es tt) p = some e := by
            rw [SequenceIR.getNodeData]
            simp only [SequenceIR.nodes]
            rw [hfind]
            rfl
          have hrest := fun q hq => hps q (List.mem_cons_of_mem p hq)
          rw [durationFold, specDurationFold]
          simp only [hget, SequenceIR.timeTable]
          rcases durationSafeList_payload ns hsafe.2 (p, e) hmem hp01 with
            ⟨k, he⟩ | ⟨sub, he, hsub⟩
          · have he2 : e = Elem.inst k := he
            subst he2
            simp only [elemDurationF, specElemDurationF]
            cases hlk : lookupTT tt p with
            | none => simp only [hlk]
            | some off =>
              simp only [hlk]
              exact ihps hrest _
          · have he2 : e = Elem.seq sub := he
            subst he2
            have h1 : Elem.depthElem (Elem.seq sub) ≤ ns.depthList :=
              depthElem_le_depthList ns (p, .seq sub) hmem
            rw [Elem.depthElem] at h1
            have hdsub : SequenceIR.depth sub < fuel := by omega
            have hrec := ih sub hdsub hsub
            simp only [elemDurationF, specElemDurationF, hrec]
            cases hlk : lookupTT tt p with
            | none => simp only [hlk]
            | some off =>
              cases hsd : specDurationF fuel sub with
              | none => simp only [hlk, hsd]
              | some dd =>
                simp only [hlk, hsd]
                exact ihps hrest _
      simp only [durationF, specDurationF]
      by_cases hp : ((SequenceIR.mk al ns es tt).predecessorIndices 1).isEmpty = true
      · rw [if_pos hp, if_pos hp]
      · rw [if_neg hp, if_neg hp]
        exact hfold _ hmemfacts none

/-- C7 (amended): for every graph in which each direct predecessor of the
Output sentinel — at every nesting level — is an existing non-sentinel
node, and each non-sentinel node holds an instruction or a nested graph,
the duration query returns exactly the value described by the claim: None
when Output has no predecessors or some predecessor's offset or duration
is unresolved, else the maximum over Output's direct predecessors of
offset plus own duration.  (Without that well-formedness the query can
instead crash with Python `AttributeError` on a sentinel payload.) -/
theorem C7_amended_duration_matches_spec (g : SequenceIR)
    (h : durationSafe g = true) :
    g.duration = Except.ok (specDuration g) :=
  duration_eq_spec_bound (g.depth + 1) g (Nat.lt_succ_self _) h

theorem C7_amended_duration_matches_spec_witness :
    durationSafe C7W = true ∧ C7W.duration = Except.ok (specDuration C7W) :=
  ⟨by decide, C7_amended_duration_matches_spec C7W (by decide)⟩

/-- C2 counterexample: the pass is not idempotent.  On the unscheduled
program `C2G` the first run applies rule 3 to the AlignLeft wrapper,
installing its single element — a sequential subgraph — directly under the
sequential parent; only the second run splices that subgraph via rule 4,
so the second run's output is not structurally equal (Python `__eq__`,
graph isomorphism with matching payloads) to the first run's. -/
theorem C2_counterexample_not_idempotent :
    unscheduledRec C2G = true ∧
    (consolidateRecursion C2G).2 = none ∧
    (consolidateRecursion (consolidateRecursion C2G).1).2 = none ∧
    seqPyEq (consolidateRecursion (consolidateRecursion C2G).1).1
      (consolidateRecursion C2G).1 = false :=
  ⟨rfl, rfl, rfl, by decide⟩

theorem consolidateLoop_flat : ∀ ns : NodeList, ∀ (al : AlignmentKind) (acc : SequenceIR),
    (∀ pr ∈ ns.toList, pr.2.isSeq = false) →
    consolidateLoop al acc ns = (acc, none)
  | .nil, al, acc, _ => by rw [consolidateLoop]
  | .cons i e r, al, acc, h => by
    have he := h (i, e) (by rw [NodeList.toList]; exact List.mem_cons_self _ _)
    have hr : ∀ pr ∈ r.toList, pr.2.isSeq = false := fun pr hpr =>
      h pr (by rw [NodeList.toList]; exact List.mem_cons_of_mem _ hpr)
    cases e with
    | seq sub => simp [Elem.isSeq] at he
    | inNode =>
      rw [consolidateLoop.eq_3 al acc i Elem.inNode r (fun s hs => by cases hs), ite_self]
      exact consolidateLoop_flat r al acc hr
    | outNode =>
      rw [consolidateLoop.eq_3 al acc i Elem.outNode r (fun s hs => by cases hs), ite_self]
      exact consolidateLoop_flat r al acc hr
    | inst k =>
      rw [consolidateLoop.eq_3 al acc i (Elem.inst k) r (fun s hs => by cases hs), ite_self]
      exact consolidateLoop_flat r al acc hr

/-- C2 (amended): the consolidation pass is not idempotent in general (see
the counterexample above — rule 3 can install a sequential subgraph under
a sequential parent, which only the next run splices).  On a flat
unscheduled program — every node payload a leaf instruction — the pass is
the identity and raises no error, so on those programs running it twice
equals running it once. -/
theorem C2_amended_flat_idempotent (g : SequenceIR)
    (hflat : g.isFlat = true) (hus : g.scheduledCheck = false) :
    consolidateRecursion g = (g, none) ∧
    consolidateRecursion (consolidateRecursion g).1 = consolidateRecursion g := by
  have h1 : consolidateRecursion g = (g, none) := by
    cases g with
    | mk al ns es tt =>
      rw [SequenceIR.isFlat] at hflat
      simp only [SequenceIR.nodes] at hflat
      rw [consolidateRecursion, if_neg (by simp [hus])]
      refine consolidateLoop_flat ns al _ ?_
      intro pr hpr
      have hmem : pr.2 ∈ ns.payloads := by
        rw [NodeList.payloads]
        exact List.mem_map_of_mem _ hpr
      have h2 := List.all_eq_true.mp hflat pr.2 hmem
      simpa using h2
  exact ⟨h1, by rw [h1]; exact h1⟩

theorem C2_amended_flat_idempotent_witness :
    C2W.isFlat = true ∧ C2W.scheduledCheck = false ∧
    (consolidateRecursion C2W = (C2W, none) ∧
     consolidateRecursion (consolidateRecursion C2W).1 = consolidateRecursion C2W) :=
  ⟨by decide, by decide, C2_amended_flat_idempotent C2W (by decide) (by decide)⟩

end PulseSpec
